import Mathlib

/-!
Verification of the optimization-pipeline core of the 3D-Model-Optimizer
service against its specification.

The development shallowly embeds the TypeScript source:

* JavaScript numbers are modelled by `JsNum`: an exact rational together
  with the three non-finite values `NaN`, `+Infinity`, `-Infinity`.
  Floating-point rounding is out of scope; `Math.sqrt` is modelled by
  `Rat.sqrt` (an exact-rational stand-in — no theorem below inspects a
  value that flows through it).
* Typed arrays are lists of `JsNum`; a gltf-transform accessor is a record
  of its type, component type and (possibly `null`) backing array.
* The gltf-transform document is an accessor store (ids into a list, where
  `dispose` blanks a slot) plus meshes, materials and textures.  Object
  references of the source become ids; extension registration, buffers and
  wall-clock timing are not observed by any claim and are elided.
* Effectful calls into external libraries (meshoptimizer, draco, toktx,
  sharp, the I/O layer) are universally-quantified function parameters of
  the embedding: the theorems hold for every behaviour of those externals.
* Fallible code returns `Except`.
-/

/-! ## JavaScript number model -/

/-- A JavaScript `number` as the embedding sees it: an exact rational or one
of the non-finite values. -/
inductive JsNum where
  | fin (q : ℚ)
  | posInf
  | negInf
  | nan
deriving DecidableEq, Repr

namespace JsNum

/-!
The rational cases are written through `mkRat`, `Rat.divInt`, `Rat.neg` and
`Rat.blt` — exact-rational computations that the kernel can evaluate (the
`+`, `*`, `-` instances on `ℚ` are `irreducible` downstream and would block
`decide`-style witnesses).  `mkRat` normalises, so the results coincide
with the ordinary field operations on `ℚ`.
-/

/-- Exact rational addition (normalised). -/
def rAdd (a b : ℚ) : ℚ := mkRat (a.num * b.den + b.num * a.den) (a.den * b.den)

/-- Exact rational multiplication (normalised). -/
def rMul (a b : ℚ) : ℚ := mkRat (a.num * b.num) (a.den * b.den)

/-- Exact rational subtraction. -/
def rSub (a b : ℚ) : ℚ := rAdd a (Rat.neg b)

/-- Exact rational division (the caller rules out a zero divisor). -/
def rDiv (a b : ℚ) : ℚ := Rat.divInt (a.num * (b.den : Int)) ((a.den : Int) * b.num)

/-- Exact rational strict order. -/
def rLt (a b : ℚ) : Bool := Rat.blt a b

/-- JavaScript `isFinite`. -/
def isFiniteJ : JsNum → Bool
  | .fin _ => true
  | _ => false

/-- Negation. -/
def neg : JsNum → JsNum
  | .fin q => .fin (Rat.neg q)
  | .posInf => .negInf
  | .negInf => .posInf
  | .nan => .nan

/-- Addition with IEEE-style special values. -/
def add : JsNum → JsNum → JsNum
  | .nan, _ => .nan
  | _, .nan => .nan
  | .fin a, .fin b => .fin (rAdd a b)
  | .posInf, .negInf => .nan
  | .negInf, .posInf => .nan
  | .posInf, _ => .posInf
  | _, .posInf => .posInf
  | .negInf, _ => .negInf
  | _, .negInf => .negInf

/-- Subtraction. -/
def sub (a b : JsNum) : JsNum := add a (neg b)

/-- Multiplication with IEEE-style special values (`0 · ∞ = NaN`). -/
def mul : JsNum → JsNum → JsNum
  | .nan, _ => .nan
  | _, .nan => .nan
  | .fin a, .fin b => .fin (rMul a b)
  | .fin a, .posInf =>
      if rLt 0 a then .posInf else if rLt a 0 then .negInf else .nan
  | .fin a, .negInf =>
      if rLt 0 a then .negInf else if rLt a 0 then .posInf else .nan
  | .posInf, .fin b =>
      if rLt 0 b then .posInf else if rLt b 0 then .negInf else .nan
  | .negInf, .fin b =>
      if rLt 0 b then .negInf else if rLt b 0 then .posInf else .nan
  | .posInf, .posInf => .posInf
  | .posInf, .negInf => .negInf
  | .negInf, .posInf => .negInf
  | .negInf, .negInf => .posInf

/-- Division.  `±0` of IEEE is collapsed to the rational `0`, so `x / 0`
takes the sign of `x` (and `0 / 0 = NaN`). -/
def div : JsNum → JsNum → JsNum
  | .nan, _ => .nan
  | _, .nan => .nan
  | .fin a, .fin b =>
      if b.num = 0 then
        (if rLt 0 a then .posInf else if rLt a 0 then .negInf else .nan)
      else .fin (rDiv a b)
  | .fin _, .posInf => .fin 0
  | .fin _, .negInf => .fin 0
  | .posInf, .fin b => if rLt b 0 then .negInf else .posInf
  | .negInf, .fin b => if rLt b 0 then .posInf else .negInf
  | .posInf, _ => .nan
  | .negInf, _ => .nan

/-- Absolute value. -/
def abs : JsNum → JsNum
  | .fin q => .fin (if rLt q 0 then Rat.neg q else q)
  | .posInf => .posInf
  | .negInf => .posInf
  | .nan => .nan

/-- `Math.sqrt`; negative inputs give `NaN`.  `Rat.sqrt` stands in for the
irrational square root (documented model deviation; no claim inspects a
value computed through it). -/
def sqrt : JsNum → JsNum
  | .nan => .nan
  | .negInf => .nan
  | .posInf => .posInf
  | .fin q => if rLt q 0 then .nan else .fin (Rat.sqrt q)

/-- Strict less-than; any comparison with `NaN` is `false`. -/
def lt : JsNum → JsNum → Bool
  | .nan, _ => false
  | _, .nan => false
  | .fin a, .fin b => rLt a b
  | .fin _, .posInf => true
  | .fin _, .negInf => false
  | .posInf, _ => false
  | .negInf, .negInf => false
  | .negInf, _ => true

/-- Strict greater-than; any comparison with `NaN` is `false`. -/
def gt (a b : JsNum) : Bool := lt b a

end JsNum

/-! ## File validator (`src/utils/file-validator.ts`) -/

namespace FileValidator

/-- Maximum GLB size accepted: 100 MiB (`FILE_CONSTRAINTS.maxSize`). -/
def maxSize : Nat := 100 * 1024 * 1024

/-- The GLB magic number `0x46546C67` (`glTF`). -/
def GLB_MAGIC : Nat := 0x46546C67

/-- Expected glTF version. -/
def GLB_VERSION : Nat := 2

/-- Minimum header size in bytes. -/
def GLB_HEADER_SIZE : Nat := 12

/-- Validation error tags: the model keeps one tag per English message the
source pushes into `errors`. -/
inductive GlbError where
  | fileTooLarge
  | fileTooSmall
  | badMagic
  | badVersion
  | lengthMismatch
  | badExtension
deriving DecidableEq, Repr

/-- The `FileValidation` result record. -/
structure FileValidation where
  isValid : Bool
  fileSize : Nat
  mimeType : String
  errors : List GlbError
deriving DecidableEq, Repr

/-- `Buffer.readUInt32LE` over a byte list. -/
def readUInt32LE (buf : List Nat) (off : Nat) : Nat :=
  buf.getD off 0 + 256 * buf.getD (off + 1) 0 + 65536 * buf.getD (off + 2) 0 +
    16777216 * buf.getD (off + 3) 0

/-- ASCII lower-casing of one character (the reach of `toLowerCase` the
extension check needs). -/
def toLowerChar (c : Char) : Char :=
  if 'A' ≤ c ∧ c ≤ 'Z' then Char.ofNat (c.toNat + 32) else c

/-- `getFileExtension`: the substring from the last dot (dot included);
empty when there is no dot or the dot is the final character. -/
def getFileExtension (filename : List Char) : List Char :=
  match (filename.reverse).findIdx? (· = '.') with
  | none => []
  | some j => if j = 0 then [] else filename.drop (filename.length - 1 - j)

/-- The single allowed extension, lower-cased. -/
def glbExt : List Char := ['.', 'g', 'l', 'b']

/-- True when no filename was supplied (the source guards with
`if (filename)`, so the empty string also skips the check) or the supplied
filename has the `.glb` extension (case-insensitively, as the source
lower-cases first). -/
def extensionOk : Option (List Char) → Bool
  | none => true
  | some f => f.isEmpty || decide ((getFileExtension f).map toLowerChar = glbExt)

/-- `validateGlbBuffer`, translated check for check; the English error
strings become `GlbError` tags. -/
def validateGlbBuffer (buf : List Nat) (filename : Option (List Char)) :
    FileValidation :=
  let fileSize := buf.length
  let errs0 : List GlbError := if maxSize < fileSize then [.fileTooLarge] else []
  if fileSize < GLB_HEADER_SIZE then
    { isValid := false, fileSize := fileSize,
      mimeType := "application/octet-stream", errors := errs0 ++ [.fileTooSmall] }
  else
    let magic := readUInt32LE buf 0
    let errs1 := if magic ≠ GLB_MAGIC then errs0 ++ [.badMagic] else errs0
    let mimeType :=
      if magic ≠ GLB_MAGIC then "application/octet-stream" else "model/gltf-binary"
    let version := readUInt32LE buf 4
    let errs2 := if version ≠ GLB_VERSION then errs1 ++ [.badVersion] else errs1
    let declaredLength := readUInt32LE buf 8
    let errs3 := if declaredLength ≠ fileSize then errs2 ++ [.lengthMismatch] else errs2
    let errs4 := if extensionOk filename then errs3 else errs3 ++ [.badExtension]
    { isValid := errs4.isEmpty, fileSize := fileSize,
      mimeType := mimeType, errors := errs4 }

end FileValidator

/-! ## Document model (gltf-transform entities)

Accessors live in a store of slots; `dispose` blanks a slot.  Primitives
name their accessors by id (the source holds object references).  The five
semantics the geometry fixer touches are modelled as named fields; other
semantics (`COLOR_n`, `JOINTS_n`, ...) are untouched by the embedded code
and elided.  Buffers and extension registration are not observed by any
claim and are elided. -/

/-- Accessor element type. -/
inductive AccType where
  | scalar | vec2 | vec3 | vec4 | mat2 | mat3 | mat4
deriving DecidableEq, Repr

/-- Components per element. -/
def AccType.components : AccType → Nat
  | .scalar => 1
  | .vec2 => 2
  | .vec3 => 3
  | .vec4 => 4
  | .mat2 => 4
  | .mat3 => 9
  | .mat4 => 16

/-- Accessor component type (`instanceof Float32Array` becomes a `.f32`
test). -/
inductive CompType where
  | i8 | u8 | i16 | u16 | u32 | f32
deriving DecidableEq, Repr

/-- Bytes per component. -/
def CompType.byteSize : CompType → Nat
  | .i8 => 1
  | .u8 => 1
  | .i16 => 2
  | .u16 => 2
  | .u32 => 4
  | .f32 => 4

/-- A typed accessor; `data = none` models a `null` backing array. -/
structure Accessor where
  type : AccType
  ctype : CompType
  data : Option (List JsNum)
deriving DecidableEq, Repr

/-- `accessor.getCount()`: elements divided by components per element
(spec invariant 1 ties the stored count to the array). -/
def Accessor.getCount (a : Accessor) : Nat :=
  (a.data.getD []).length / a.type.components

/-- `accessor.getArray().byteLength`. -/
def Accessor.byteLength (a : Accessor) : Nat :=
  (a.data.getD []).length * a.ctype.byteSize

/-- The document's accessor list; a `none` slot is a disposed accessor. -/
abbrev AccessorStore := List (Option Accessor)

/-- Look an accessor up by id. -/
def getAcc (st : AccessorStore) (id : Nat) : Option Accessor :=
  st.getD id none

/-- Overwrite an accessor in place (out-of-range ids write nothing, as the
source cannot hold a dangling reference). -/
def setAcc (st : AccessorStore) (id : Nat) (a : Accessor) : AccessorStore :=
  st.set id (some a)

/-- A draw unit: the attribute semantics the embedded code touches, plus
indices and material, all by id. -/
structure Primitive where
  position : Option Nat := none
  normal : Option Nat := none
  texcoord0 : Option Nat := none
  texcoord1 : Option Nat := none
  tangent : Option Nat := none
  indices : Option Nat := none
  material : Option Nat := none
deriving DecidableEq, Repr

/-- A mesh: its primitives. -/
structure Mesh where
  primitives : List Primitive
deriving DecidableEq, Repr

/-- A texture: name, MIME type, encoded image bytes (`none` models a `null`
image). -/
structure Texture where
  name : String := ""
  mimeType : Option String := none
  image : Option (List Nat) := none
deriving DecidableEq, Repr

/-- A material: its five texture slots, by texture id. -/
structure Material where
  baseColorTexture : Option Nat := none
  normalTexture : Option Nat := none
  metallicRoughnessTexture : Option Nat := none
  occlusionTexture : Option Nat := none
  emissiveTexture : Option Nat := none
deriving DecidableEq, Repr

/-- The in-memory document. -/
structure Document where
  accessors : AccessorStore := []
  meshes : List Mesh := []
  materials : List Material := []
  textures : List Texture := []
deriving DecidableEq, Repr

/-- All primitives of the document, in mesh order. -/
def Document.allPrims (doc : Document) : List Primitive :=
  doc.meshes.flatMap Mesh.primitives

/-! ## Geometry fixer (`src/components/geometry-fixer.ts`) -/

namespace GeometryFixer

/-- The `GeometryFixResult` record. -/
structure GeometryFixResult where
  invalidVerticesFixed : Nat
  normalsRegenerated : Nat
  tangentsRemoved : Nat
  emptyAccessorsRemoved : Nat
  totalPrimitivesProcessed : Nat
deriving DecidableEq, Repr

/-- The all-zero starting counters. -/
def emptyFixResult : GeometryFixResult := ⟨0, 0, 0, 0, 0⟩

/-- `hasNonFinite`. -/
def hasNonFinite (arr : List JsNum) : Bool :=
  arr.any fun x => !x.isFiniteJ

/-- One component of `fixNonFinite`: a non-finite value becomes `0`. -/
def fixVal (x : JsNum) : JsNum :=
  if x.isFiniteJ then x else .fin 0

/-- `fixNonFinite`: the repaired array and the number of replacements. -/
def fixNonFinite (arr : List JsNum) : List JsNum × Nat :=
  (arr.map fixVal, arr.countP fun x => !x.isFiniteJ)

/-- The sampled indices `start, start+step, ...` below `len`. -/
def sampleIdxs (len step start : Nat) : List Nat :=
  (List.range len).filter fun i => start ≤ i ∧ (i - start) % step = 0

/-- `isTangentValid`: VEC4 type, a non-empty all-finite array, and every
sampled `w` component within `0.1` of `±1`. -/
def isTangentValid (acc : Accessor) : Bool :=
  if acc.type ≠ .vec4 then false
  else match acc.data with
  | none => false
  | some a =>
    if a.length = 0 then false
    else if hasNonFinite a then false
    else
      let step := max 4 ((a.length / 40) * 4)
      (sampleIdxs a.length step 3).all fun i =>
        !(JsNum.gt (JsNum.abs (JsNum.sub (JsNum.abs (a.getD i .nan)) (.fin 1)))
          (.fin (mkRat 1 10)))

/-- `isNormalValid`: VEC3 type, non-empty array, and every sampled vector
finite with squared length in `[0.25, 2.25]` (the source compares
`Math.sqrt` against `0.5` and `1.5`; squaring is the same comparison in
exact arithmetic). -/
def isNormalValid (acc : Accessor) : Bool :=
  if acc.type ≠ .vec3 then false
  else match acc.data with
  | none => false
  | some a =>
    if a.length = 0 then false
    else
      let step := max 3 ((a.length / 30) * 3)
      (sampleIdxs a.length step 0).all fun i =>
        match a.getD i .nan, a.getD (i + 1) .nan, a.getD (i + 2) .nan with
        | .fin x, .fin y, .fin z =>
            let s := JsNum.rAdd (JsNum.rMul x x)
              (JsNum.rAdd (JsNum.rMul y y) (JsNum.rMul z z))
            !(JsNum.rLt s (mkRat 1 4)) && !(JsNum.rLt (mkRat 9 4) s)
        | _, _, _ => false

/-- A JS value used as a vertex index: a non-negative integer indexes the
array, anything else reads as `undefined` (`NaN` after arithmetic). -/
def vertBase : JsNum → Option Nat
  | .fin q => if q.den = 1 ∧ 0 ≤ q.num then some q.num.toNat else none
  | _ => none

/-- `pos[idx*3 + off]` with JS out-of-range reads giving `NaN`. -/
def readPosAt (pos : List JsNum) (v : JsNum) (off : Nat) : JsNum :=
  match vertBase v with
  | some n => pos.getD (3 * n + off) .nan
  | none => .nan

/-- `l[i] = v` on a typed array: out-of-range writes are no-ops. -/
def setAt (l : List JsNum) (i : Nat) (v : JsNum) : List JsNum :=
  if i < l.length then l.set i v else l

/-- `l[i] += v` on a typed array. -/
def addAt (l : List JsNum) (i : Nat) (v : JsNum) : List JsNum :=
  if i < l.length then l.set i (JsNum.add (l.getD i .nan) v) else l

/-- Accumulate one face normal into one vertex's slot (`normals[vi*3+k] += n`,
a no-op when `vi` is not a valid index). -/
def accumVertex (normals : List JsNum) (v : JsNum) (nx ny nz : JsNum) :
    List JsNum :=
  match vertBase v with
  | none => normals
  | some n => addAt (addAt (addAt normals (3 * n) nx) (3 * n + 1) ny) (3 * n + 2) nz

/-- The loop starts `0, 3, 6, ...` strictly below `len`. -/
def triStarts (len : Nat) : List Nat :=
  (List.range ((len + 2) / 3)).map (· * 3)

/-- The indexed branch of `computeNormals`: accumulate area-weighted face
normals over `idx` triples. -/
def accumIndexed (pos idx normals : List JsNum) : List JsNum :=
  (triStarts idx.length).foldl
    (fun ns i =>
      let va := idx.getD i .nan
      let vb := idx.getD (i + 1) .nan
      let vc := idx.getD (i + 2) .nan
      let ex := JsNum.sub (readPosAt pos vb 0) (readPosAt pos va 0)
      let ey := JsNum.sub (readPosAt pos vb 1) (readPosAt pos va 1)
      let ez := JsNum.sub (readPosAt pos vb 2) (readPosAt pos va 2)
      let fx := JsNum.sub (readPosAt pos vc 0) (readPosAt pos va 0)
      let fy := JsNum.sub (readPosAt pos vc 1) (readPosAt pos va 1)
      let fz := JsNum.sub (readPosAt pos vc 2) (readPosAt pos va 2)
      let nx := JsNum.sub (JsNum.mul ey fz) (JsNum.mul ez fy)
      let ny := JsNum.sub (JsNum.mul ez fx) (JsNum.mul ex fz)
      let nz := JsNum.sub (JsNum.mul ex fy) (JsNum.mul ey fx)
      accumVertex (accumVertex (accumVertex ns va nx ny nz) vb nx ny nz) vc nx ny nz)
    normals

/-- The non-indexed branch: one face normal per consecutive position
triple, written (not accumulated) into all three vertices. -/
def accumSequential (pos : List JsNum) (vCount : Nat) (normals : List JsNum) :
    List JsNum :=
  ((List.range ((vCount * 3 + 8) / 9)).map (· * 9)).foldl
    (fun ns i =>
      let ex := JsNum.sub (pos.getD (i + 3) .nan) (pos.getD i .nan)
      let ey := JsNum.sub (pos.getD (i + 4) .nan) (pos.getD (i + 1) .nan)
      let ez := JsNum.sub (pos.getD (i + 5) .nan) (pos.getD (i + 2) .nan)
      let fx := JsNum.sub (pos.getD (i + 6) .nan) (pos.getD i .nan)
      let fy := JsNum.sub (pos.getD (i + 7) .nan) (pos.getD (i + 1) .nan)
      let fz := JsNum.sub (pos.getD (i + 8) .nan) (pos.getD (i + 2) .nan)
      let nx := JsNum.sub (JsNum.mul ey fz) (JsNum.mul ez fy)
      let ny := JsNum.sub (JsNum.mul ez fx) (JsNum.mul ex fz)
      let nz := JsNum.sub (JsNum.mul ex fy) (JsNum.mul ey fx)
      let ns1 := setAt (setAt (setAt ns i nx) (i + 1) ny) (i + 2) nz
      let ns2 := setAt (setAt (setAt ns1 (i + 3) nx) (i + 4) ny) (i + 5) nz
      setAt (setAt (setAt ns2 (i + 6) nx) (i + 7) ny) (i + 8) nz)
    normals

/-- The per-vertex normalisation pass; a length at most `1e-6` (or `NaN`)
becomes `(0, 1, 0)`. -/
def normalizeVecs (ns : List JsNum) : List JsNum :=
  (triStarts ns.length).foldl
    (fun l i =>
      let x := l.getD i .nan
      let y := l.getD (i + 1) .nan
      let z := l.getD (i + 2) .nan
      let len := JsNum.sqrt
        (JsNum.add (JsNum.mul x x) (JsNum.add (JsNum.mul y y) (JsNum.mul z z)))
      if JsNum.gt len (.fin (mkRat 1 1000000)) then
        setAt (setAt (setAt l i (JsNum.div x len)) (i + 1) (JsNum.div y len))
          (i + 2) (JsNum.div z len)
      else
        setAt (setAt (setAt l i (.fin 0)) (i + 1) (.fin 1)) (i + 2) (.fin 0))
    ns

/-- `computeNormals`: smooth normals from position and index data; `none`
when the primitive has no (or a `null`) position array.  A `null` indices
array makes the source throw; the model reads it as empty, and the theorems
below assume well-formed documents. -/
def computeNormals (st : AccessorStore) (p : Primitive) : Option (List JsNum) :=
  match p.position with
  | none => none
  | some pid =>
    match getAcc st pid with
    | none => none
    | some posAcc =>
      match posAcc.data with
      | none => none
      | some pos =>
        let vCount := posAcc.getCount
        let normals0 : List JsNum := List.replicate (vCount * 3) (.fin 0)
        let normals :=
          match p.indices with
          | some iid => accumIndexed pos (((getAcc st iid).bind Accessor.data).getD []) normals0
          | none => accumSequential pos vCount normals0
        some (normalizeVecs normals)

/-- The repeated guard `arr && arr instanceof Float32Array &&
hasNonFinite(arr)` followed by the in-place fix: the updated store and the
replacement count. -/
def fixAttrAt (st : AccessorStore) (idOpt : Option Nat) : AccessorStore × Nat :=
  match idOpt with
  | none => (st, 0)
  | some id =>
    match getAcc st id with
    | none => (st, 0)
    | some acc =>
      match acc.data with
      | none => (st, 0)
      | some arr =>
        if acc.ctype = .f32 ∧ hasNonFinite arr then
          (setAcc st id { acc with data := some (fixNonFinite arr).1 },
            (fixNonFinite arr).2)
        else (st, 0)

/-- Append the regenerated normal accessor and point the primitive at it;
a `none` from `computeNormals` (no usable position) leaves everything
alone. -/
def regenNormal (st : AccessorStore) (p : Primitive) (c : GeometryFixResult) :
    AccessorStore × Primitive × GeometryFixResult :=
  match computeNormals st p with
  | none => (st, p, c)
  | some arr =>
    (st ++ [some { type := .vec3, ctype := .f32, data := some arr }],
      { p with normal := some st.length },
      { c with normalsRegenerated := c.normalsRegenerated + 1 })

/-- The `repairInput` normal check: only a present-but-invalid normal is
regenerated. -/
def normalRegenStep (st : AccessorStore) (p : Primitive) (c : GeometryFixResult) :
    AccessorStore × Primitive × GeometryFixResult :=
  match p.normal with
  | none => (st, p, c)
  | some nid =>
    match getAcc st nid with
    | none => (st, p, c)
    | some acc =>
      if isNormalValid acc then (st, p, c) else regenNormal st p c

/-- The `repairOutput` normal check: a missing normal is regenerated too. -/
def normalEnsureStep (st : AccessorStore) (p : Primitive) (c : GeometryFixResult) :
    AccessorStore × Primitive × GeometryFixResult :=
  match p.normal with
  | none => regenNormal st p c
  | some nid =>
    match getAcc st nid with
    | none => (st, p, c)
    | some acc =>
      if isNormalValid acc then (st, p, c) else regenNormal st p c

/-- Drop the primitive's tangent when it fails `isTangentValid`. -/
def tangentDropStep (st : AccessorStore) (p : Primitive) (c : GeometryFixResult) :
    AccessorStore × Primitive × GeometryFixResult :=
  match p.tangent with
  | none => (st, p, c)
  | some tid =>
    match getAcc st tid with
    | none => (st, p, c)
    | some acc =>
      if isTangentValid acc then (st, p, c)
      else (st, { p with tangent := none },
        { c with tangentsRemoved := c.tangentsRemoved + 1 })

/-- The body of `repairInput`'s primitive loop: fix positions (counted), fix
normals (the count is discarded by the source) and regenerate them when
invalid, fix UVs (counted), drop invalid tangents. -/
def processPrimInput (st : AccessorStore) (c : GeometryFixResult) (p : Primitive) :
    AccessorStore × Primitive × GeometryFixResult :=
  let c1 := { c with totalPrimitivesProcessed := c.totalPrimitivesProcessed + 1 }
  let r1 := fixAttrAt st p.position
  let c2 := { c1 with invalidVerticesFixed := c1.invalidVerticesFixed + r1.2 }
  let st2 := (fixAttrAt r1.1 p.normal).1
  let s3 := normalRegenStep st2 p c2
  let r4 := fixAttrAt s3.1 s3.2.1.texcoord0
  let c4 := { s3.2.2 with
    invalidVerticesFixed := s3.2.2.invalidVerticesFixed + r4.2 }
  let r5 := fixAttrAt r4.1 s3.2.1.texcoord1
  let c5 := { c4 with invalidVerticesFixed := c4.invalidVerticesFixed + r5.2 }
  tangentDropStep r5.1 s3.2.1 c5

/-- The body of `repairOutput`'s primitive loop: fix positions (counted),
regenerate missing or invalid normals, drop invalid tangents, fix UVs
(counted). -/
def processPrimOutput (st : AccessorStore) (c : GeometryFixResult) (p : Primitive) :
    AccessorStore × Primitive × GeometryFixResult :=
  let c1 := { c with totalPrimitivesProcessed := c.totalPrimitivesProcessed + 1 }
  let r1 := fixAttrAt st p.position
  let c2 := { c1 with invalidVerticesFixed := c1.invalidVerticesFixed + r1.2 }
  let s3 := normalEnsureStep r1.1 p c2
  let t4 := tangentDropStep s3.1 s3.2.1 s3.2.2
  let r5 := fixAttrAt t4.1 t4.2.1.texcoord0
  let c5 := { t4.2.2 with
    invalidVerticesFixed := t4.2.2.invalidVerticesFixed + r5.2 }
  let r6 := fixAttrAt r5.1 t4.2.1.texcoord1
  let c6 := { c5 with invalidVerticesFixed := c5.invalidVerticesFixed + r6.2 }
  (r6.1, t4.2.1, c6)

/-- Process a primitive list in order, threading the store and counters. -/
def processPrims
    (f : AccessorStore → GeometryFixResult → Primitive →
      AccessorStore × Primitive × GeometryFixResult)
    (st : AccessorStore) (c : GeometryFixResult) :
    List Primitive → AccessorStore × List Primitive × GeometryFixResult
  | [] => (st, [], c)
  | p :: ps =>
    let r := f st c p
    let rest := processPrims f r.1 r.2.2 ps
    (rest.1, r.2.1 :: rest.2.1, rest.2.2)

/-- Process the meshes in order. -/
def processMeshes
    (f : AccessorStore → GeometryFixResult → Primitive →
      AccessorStore × Primitive × GeometryFixResult)
    (st : AccessorStore) (c : GeometryFixResult) :
    List Mesh → AccessorStore × List Mesh × GeometryFixResult
  | [] => (st, [], c)
  | m :: ms =>
    let r := processPrims f st c m.primitives
    let rest := processMeshes f r.1 r.2.2 ms
    (rest.1, ⟨r.2.1⟩ :: rest.2.1, rest.2.2)

/-- Does the primitive reference accessor `id` through any slot? -/
def primRefsAcc (p : Primitive) (id : Nat) : Bool :=
  p.position = some id || p.normal = some id || p.texcoord0 = some id ||
    p.texcoord1 = some id || p.tangent = some id || p.indices = some id

/-- `listParents().length`: the root plus every primitive that references
the accessor. -/
def parentCount (meshes : List Mesh) (id : Nat) : Nat :=
  1 + ((meshes.flatMap Mesh.primitives).filter (primRefsAcc · id)).length

/-- One accessor of the dispose sweep: dispose it when its array is `null`
or empty and only the root references it. -/
def disposeStep (meshes : List Mesh) (acc : AccessorStore × Nat) (id : Nat) :
    AccessorStore × Nat :=
  match getAcc acc.1 id with
  | none => acc
  | some a =>
    if (a.data.getD []).length = 0 then
      if parentCount meshes id ≤ 1 then (acc.1.set id none, acc.2 + 1) else acc
    else acc

/-- The final sweep of both repair phases: dispose accessors whose array is
`null` or empty and that only the root references. -/
def disposePass (st : AccessorStore) (meshes : List Mesh) : AccessorStore × Nat :=
  (List.range st.length).foldl (disposeStep meshes) (st, 0)

/-- `repairInput`. -/
def repairInput (doc : Document) : Document × GeometryFixResult :=
  let r := processMeshes processPrimInput doc.accessors emptyFixResult doc.meshes
  let d := disposePass r.1 r.2.1
  ({ doc with accessors := d.1, meshes := r.2.1 },
    { r.2.2 with emptyAccessorsRemoved := r.2.2.emptyAccessorsRemoved + d.2 })

/-- `repairOutput`. -/
def repairOutput (doc : Document) : Document × GeometryFixResult :=
  let r := processMeshes processPrimOutput doc.accessors emptyFixResult doc.meshes
  let d := disposePass r.1 r.2.1
  ({ doc with accessors := d.1, meshes := r.2.1 },
    { r.2.2 with emptyAccessorsRemoved := r.2.2.emptyAccessorsRemoved + d.2 })

/-- The count `fixAttrAt` reports, read off the store before the fix: the
non-finite components of a present `f32` array (`0` for other component
types, absent arrays and absent attributes). -/
def fixCount (st : AccessorStore) (o : Option Nat) : Nat :=
  match o with
  | none => 0
  | some id =>
    match getAcc st id with
    | none => 0
    | some acc =>
      match acc.data with
      | none => 0
      | some arr =>
        if acc.ctype = .f32 then arr.countP (fun x => !x.isFiniteJ) else 0

/-- The accessor ids a primitive references through the four attribute
classes `repairInput` scans and fixes. -/
def attrIds (p : Primitive) : List Nat :=
  [p.position, p.normal, p.texcoord0, p.texcoord1].reduceOption

/-- The replacements `repairInput` counts for one primitive: positions and
the two UV sets (the normal count is dropped by the source). -/
def primFixCount (st : AccessorStore) (p : Primitive) : Nat :=
  fixCount st p.position + fixCount st p.texcoord0 + fixCount st p.texcoord1

/-- A store transition that keeps every valid tangent accessor word for
word. -/
def preservesValid (st st' : AccessorStore) : Prop :=
  ∀ id acc, getAcc st id = some acc → isTangentValid acc = true →
    getAcc st' id = some acc

/-- The tangent postcondition of the repair phases: the primitive has no
tangent, or its tangent accessor exists and passes `isTangentValid`. -/
def tangentOK (st : AccessorStore) (p : Primitive) : Prop :=
  ∀ tid, p.tangent = some tid →
    ∃ acc, getAcc st tid = some acc ∧ isTangentValid acc = true

/-- Every tangent reference of the primitive resolves in the store. -/
def tangentResolves (st : AccessorStore) (p : Primitive) : Prop :=
  ∀ tid, p.tangent = some tid → (getAcc st tid).isSome

end GeometryFixer

/-! ## Draco compressor (`src/components/draco-compressor.ts`) -/

namespace DracoCompressor

/-- `DracoOptions`; absent fields are `none`. -/
structure DracoOptions where
  enabled : Bool := true
  compressionLevel : Option ℚ := none
  quantizePosition : Option ℚ := none
  quantizeNormal : Option ℚ := none
  quantizeTexcoord : Option ℚ := none
deriving DecidableEq, Repr

/-- `DEFAULT_DRACO_OPTIONS`. -/
def DEFAULT_DRACO_OPTIONS : DracoOptions :=
  { compressionLevel := some 7, quantizePosition := some 14,
    quantizeNormal := some 10, quantizeTexcoord := some 12 }

/-- `DRACO_COMPRESSION_LEVEL_RANGE`. -/
def DRACO_LEVEL_MIN : ℚ := 0

/-- `DRACO_COMPRESSION_LEVEL_RANGE.max`. -/
def DRACO_LEVEL_MAX : ℚ := 10

/-- The `OptimizationError` outcomes `compressDraco` can raise. -/
inductive DracoError where
  | invalidOptions (field : String)
  | optimizationFailed (msg : String)
deriving DecidableEq, Repr

/-- `DracoStats`. -/
structure DracoStats where
  meshesCompressed : Nat
  originalSize : Nat
  compressedSize : Int
  compressionRatio : ℚ
deriving DecidableEq, Repr

/-- The argument record handed to the external `draco()` transform. -/
structure DracoParams where
  method : String
  encodeSpeed : ℚ
  decodeSpeed : ℚ
  quantizePosition : ℚ
  quantizeNormal : ℚ
  quantizeTexcoord : ℚ
  quantizeColor : ℚ
  quantizeGeneric : ℚ
deriving DecidableEq, Repr

/-- `Number.isInteger` on an exact rational. -/
def isIntQ (q : ℚ) : Bool := q.den = 1

/-- Sum of `accessor.getArray().byteLength` over the document's (live)
accessors (`calculateGeometrySize`). -/
def calculateGeometrySize (document : Document) : Nat :=
  (document.accessors.map fun o =>
    match o with
    | none => 0
    | some a =>
      match a.data with
      | none => 0
      | some arr => arr.length * a.ctype.byteSize).sum

/-- `countMeshesWithPrimitives`. -/
def countMeshesWithPrimitives (document : Document) : Nat :=
  (document.meshes.filter fun m => m.primitives.length > 0).length

/-- `validateOptions`: compression level in `[0, 10]`; each quantization
field, when present, an integer in `[1, 30]`. -/
def validateOptions (options : DracoOptions) : Except DracoError Unit :=
  match options.compressionLevel with
  | some l =>
    if JsNum.rLt l DRACO_LEVEL_MIN || JsNum.rLt DRACO_LEVEL_MAX l then
      .error (.invalidOptions "compressionLevel")
    else validateQuant options
  | none => validateQuant options
where
  /-- The three quantization field checks, in source order. -/
  validateQuant (options : DracoOptions) : Except DracoError Unit :=
    match checkQ options.quantizePosition with
    | false => .error (.invalidOptions "quantizePosition")
    | true =>
      match checkQ options.quantizeNormal with
      | false => .error (.invalidOptions "quantizeNormal")
      | true =>
        match checkQ options.quantizeTexcoord with
        | false => .error (.invalidOptions "quantizeTexcoord")
        | true => .ok ()
  /-- A quantization field is fine when absent or an integer in `[1, 30]`. -/
  checkQ : Option ℚ → Bool
    | none => true
    | some v => !(JsNum.rLt v 1 || JsNum.rLt 30 v || !isIntQ v)

/-- `Math.round` for the non-negative values this component rounds:
`⌊x + 1/2⌋` (JS rounds half toward `+∞`). -/
def jsRound (q : ℚ) : Int :=
  Int.fdiv (JsNum.rAdd q (mkRat 1 2)).num ((JsNum.rAdd q (mkRat 1 2)).den : Int)

/-- The fixed estimate constant of the source (`~6.7x compression
typical`). -/
def estimatedRatio : ℚ := mkRat 3 20

/-- `compressDraco`.  The external `draco()` transform (whose byte-level
work happens at I/O write time) is the parameter `dracoTransform`; the
theorems hold for every behaviour of it.  Extension registration carries no
observable state in the model and is elided. -/
def compressDraco (dracoTransform : DracoParams → Document → Except String Document)
    (document : Document) (options : DracoOptions) :
    Except DracoError (DracoStats × Document) :=
  match validateOptions options with
  | .error e => .error e
  | .ok _ =>
    let mergedOptions : DracoOptions :=
      { enabled := true,
        compressionLevel := options.compressionLevel <|> DEFAULT_DRACO_OPTIONS.compressionLevel,
        quantizePosition := options.quantizePosition <|> DEFAULT_DRACO_OPTIONS.quantizePosition,
        quantizeNormal := options.quantizeNormal <|> DEFAULT_DRACO_OPTIONS.quantizeNormal,
        quantizeTexcoord := options.quantizeTexcoord <|> DEFAULT_DRACO_OPTIONS.quantizeTexcoord }
    let originalSize := calculateGeometrySize document
    let meshesCompressed := countMeshesWithPrimitives document
    if originalSize = 0 || meshesCompressed = 0 then
      .ok ({ meshesCompressed := 0, originalSize := 0, compressedSize := 0,
             compressionRatio := 1 }, document)
    else
      let level := (mergedOptions.compressionLevel.getD
        (DEFAULT_DRACO_OPTIONS.compressionLevel.getD 7))
      let params : DracoParams :=
        { method := "edgebreaker",
          encodeSpeed := JsNum.rSub 10 level,
          decodeSpeed := JsNum.rSub 10 level,
          quantizePosition := mergedOptions.quantizePosition.getD
            (DEFAULT_DRACO_OPTIONS.quantizePosition.getD 14),
          quantizeNormal := mergedOptions.quantizeNormal.getD
            (DEFAULT_DRACO_OPTIONS.quantizeNormal.getD 10),
          quantizeTexcoord := mergedOptions.quantizeTexcoord.getD
            (DEFAULT_DRACO_OPTIONS.quantizeTexcoord.getD 12),
          quantizeColor := 8, quantizeGeneric := 12 }
      match dracoTransform params document with
      | .error e => .error (.optimizationFailed e)
      | .ok doc2 =>
        let compressedSize := jsRound (JsNum.rMul (mkRat originalSize 1) estimatedRatio)
        let compressionRatio :=
          if 0 < originalSize then
            JsNum.rDiv (mkRat compressedSize 1) (mkRat originalSize 1)
          else 1
        .ok ({ meshesCompressed := meshesCompressed, originalSize := originalSize,
               compressedSize := compressedSize,
               compressionRatio := compressionRatio }, doc2)

end DracoCompressor

/-! ## Texture compressor (`src/components/texture-compressor.ts`) -/

namespace TextureCompressor

/-- The two Basis Universal encoding modes. -/
inductive TextureMode where
  | ETC1S
  | UASTC
deriving DecidableEq, Repr

/-- `TextureOptions`. -/
structure TextureOptions where
  enabled : Bool := true
  mode : Option TextureMode := none
  quality : Option ℚ := none
  slots : Option (List String) := none
deriving DecidableEq, Repr

/-- `DEFAULT_TEXTURE_OPTIONS`. -/
def DEFAULT_TEXTURE_OPTIONS : TextureOptions :=
  { mode := some .ETC1S, quality := some 128 }

/-- `QUALITY_RANGES`. -/
def qualityRange : TextureMode → ℚ × ℚ
  | .ETC1S => (1, 255)
  | .UASTC => (0, 4)

/-- `DEFAULT_QUALITY`. -/
def defaultQuality : TextureMode → ℚ
  | .ETC1S => 128
  | .UASTC => 2

/-- The `OptimizationError` outcome `compressTextures` can raise. -/
inductive TexError where
  | invalidOptions (field : String)
deriving DecidableEq, Repr

/-- `TextureDetail`. -/
structure TextureDetail where
  name : String
  originalFormat : String
  originalSize : Nat
  compressedSize : Nat
deriving DecidableEq, Repr

/-- `TextureStats` (with the extra `method` field the source smuggles in;
the early zero-stats return does not set it). -/
structure TextureStats where
  texturesProcessed : Nat
  originalSize : Nat
  compressedSize : Nat
  compressionRatio : ℚ
  details : List TextureDetail
  method : Option String := none
deriving DecidableEq, Repr

/-- `validateOptions`: the mode enumeration makes the source's
`TEXTURE_MODES.includes` check vacuous; an out-of-range or non-integer
quality is rejected against the (given or default-`ETC1S`) mode's range. -/
def validateOptions (options : TextureOptions) : Except TexError Unit :=
  match options.quality with
  | none => .ok ()
  | some q =>
    let mode := options.mode.getD .ETC1S
    let range := qualityRange mode
    if !DracoCompressor.isIntQ q then .error (.invalidOptions "quality")
    else if JsNum.rLt q range.1 || JsNum.rLt range.2 q then
      .error (.invalidOptions "quality")
    else .ok ()

/-- One material slot lookup of `getTexturesToProcess`. -/
def slotLookup (m : Material) : String → Option Nat
  | "baseColorTexture" => m.baseColorTexture
  | "normalTexture" => m.normalTexture
  | "metallicRoughnessTexture" => m.metallicRoughnessTexture
  | "occlusionTexture" => m.occlusionTexture
  | "emissiveTexture" => m.emissiveTexture
  | _ => none

/-- `getTexturesToProcess`: all textures, or (insertion-ordered, de-duplicated,
mirroring the `Set`) the ones reachable through a named material slot. -/
def getTexturesToProcess (document : Document) (slots : Option (List String)) :
    List Nat :=
  match slots with
  | none => List.range document.textures.length
  | some ss =>
    if ss.isEmpty then List.range document.textures.length
    else
      (document.materials.flatMap fun m => ss.filterMap (slotLookup m)).foldl
        (fun acc t => if t ∈ acc then acc else acc ++ [t]) []

/-- JavaScript `a || b` on strings: the empty string falls through. -/
def jsOrString (a b : String) : String := if a.isEmpty then b else a

/-- Process one texture of the loop body: a `null` image is skipped without
a detail entry (`continue`); otherwise the texture is re-encoded through
`toktx` (KTX2) or `sharp` (WebP fallback), and a failed encode keeps the
original bytes.  Returns the updated document, the detail entry (if any)
and the two size contributions. -/
def processTexture (toktxFn : List Nat → String → TextureMode → ℚ → Except String (List Nat))
    (sharpFn : List Nat → ℚ → Except String (List Nat))
    (useToktx : Bool) (mode : TextureMode) (quality : ℚ)
    (document : Document) (id : Nat) :
    Document × Option TextureDetail × Nat × Nat :=
  match document.textures[id]? with
  | none => (document, none, 0, 0)
  | some texture =>
    match texture.image with
    | none => (document, none, 0, 0)
    | some imageData =>
      let texOriginalSize := imageData.length
      let name := jsOrString texture.name "unnamed"
      let originalFormat := jsOrString (texture.mimeType.getD "") "unknown"
      let encodeRes :=
        if useToktx then
          toktxFn imageData (texture.mimeType.getD "image/png") mode quality
        else sharpFn imageData quality
      match encodeRes with
      | .ok compressedData =>
        let texture2 := { texture with
          mimeType := some (if useToktx then "image/ktx2" else "image/webp"),
          image := some compressedData }
        let detail : TextureDetail := { name := name, originalFormat := originalFormat, originalSize := texOriginalSize, compressedSize := compressedData.length }
        ({ document with textures := document.textures.set id texture2 },
          some detail, texOriginalSize, compressedData.length)
      | .error _ =>
        let detail : TextureDetail := { name := name, originalFormat := originalFormat, originalSize := texOriginalSize, compressedSize := texOriginalSize }
        (document, some detail, texOriginalSize, texOriginalSize)

/-- The texture loop, threading the document and accumulating details and
sizes. -/
def processTextures (toktxFn : List Nat → String → TextureMode → ℚ → Except String (List Nat))
    (sharpFn : List Nat → ℚ → Except String (List Nat))
    (useToktx : Bool) (mode : TextureMode) (quality : ℚ) :
    Document → List Nat → Document × List TextureDetail × Nat × Nat
  | document, [] => (document, [], 0, 0)
  | document, id :: ids =>
    let r := processTexture toktxFn sharpFn useToktx mode quality document id
    let rest := processTextures toktxFn sharpFn useToktx mode quality r.1 ids
    (rest.1,
      (match r.2.1 with
        | none => rest.2.1
        | some d => d :: rest.2.1),
      r.2.2.1 + rest.2.2.1, r.2.2.2 + rest.2.2.2)

/-- `compressTextures`.  `useToktx` models `isToktxAvailable()`; the two
encoders are parameters.  KTX2 extension registration is elided. -/
def compressTextures (toktxFn : List Nat → String → TextureMode → ℚ → Except String (List Nat))
    (sharpFn : List Nat → ℚ → Except String (List Nat))
    (useToktx : Bool) (document : Document) (options : TextureOptions) :
    Except TexError (TextureStats × Document) :=
  match validateOptions options with
  | .error e => .error e
  | .ok _ =>
    let mode := options.mode.getD (DEFAULT_TEXTURE_OPTIONS.mode.getD .ETC1S)
    let quality := options.quality.getD (defaultQuality mode)
    let texturesToProcess := getTexturesToProcess document options.slots
    if texturesToProcess.length = 0 then
      .ok ({ texturesProcessed := 0, originalSize := 0, compressedSize := 0,
             compressionRatio := 1, details := [], method := none }, document)
    else
      let r := processTextures toktxFn sharpFn useToktx mode quality document
        texturesToProcess
      .ok ({ texturesProcessed := texturesToProcess.length,
             originalSize := r.2.2.1, compressedSize := r.2.2.2,
             compressionRatio :=
               if 0 < r.2.2.1 then
                 JsNum.rDiv (mkRat r.2.2.2 1) (mkRat r.2.2.1 1)
               else 1,
             details := r.2.1,
             method := some (if useToktx then "KTX2/Basis Universal (toktx)"
               else "WebP (sharp fallback)") }, r.1)

end TextureCompressor

/-! ## Mesh simplifier (`src/components/mesh-simplifier.ts`) -/

namespace MeshSimplifier

/-- `SimplifyOptions`. -/
structure SimplifyOptions where
  enabled : Bool := true
  targetRatio : Option ℚ := none
  targetCount : Option ℚ := none
  error : Option ℚ := none
  lockBorder : Option Bool := none
deriving DecidableEq, Repr

/-- `SIMPLIFY_RATIO_RANGE.max`. -/
def SIMPLIFY_RATIO_MAX : ℚ := 1

/-- An `InvalidOptions` failure carries the document state at throw time
(validation runs before any transform, so it is the untouched input);
`external` stands for an exception out of the `weld`/`simplify`
library transforms. -/
inductive SimpErr where
  | invalidOptions (field : String) (doc : Document)
  | external (msg : String)
deriving DecidableEq, Repr

/-- `SimplifyStats`. -/
structure SimplifyStats where
  originalTriangles : Nat
  simplifiedTriangles : Nat
  reductionRatio : ℚ
  meshesProcessed : Nat
deriving DecidableEq, Repr

/-- The argument record handed to the external `simplify()` transform (the
`MeshoptSimplifier` module reference is elided). -/
structure SimplifyParams where
  ratio : ℚ
  error : ℚ
  lockBorder : Bool
deriving DecidableEq, Repr

/-- The `targetRatio <= 0 || targetRatio > SIMPLIFY_RATIO_RANGE.max` test
(false when the field is absent). -/
def ratioBad (options : SimplifyOptions) : Bool :=
  match options.targetRatio with
  | none => false
  | some r => !(JsNum.rLt 0 r) || JsNum.rLt SIMPLIFY_RATIO_MAX r

/-- The `targetCount <= 0 || !Number.isInteger(targetCount)` test. -/
def countBad (options : SimplifyOptions) : Bool :=
  match options.targetCount with
  | none => false
  | some c => !(JsNum.rLt 0 c) || !DracoCompressor.isIntQ c

/-- The `error < 0 || error > 1` test. -/
def errorBad (options : SimplifyOptions) : Bool :=
  match options.error with
  | none => false
  | some e => JsNum.rLt e 0 || JsNum.rLt 1 e

/-- `validateOptions`, in source order: both-targets conflict, then
`targetRatio ∈ (0, 1]`, then `targetCount` a positive integer, then
`error ∈ [0, 1]`; the first failed check names its field, and the thrown
error carries the (untouched) document state. -/
def validateOptions (doc : Document) (options : SimplifyOptions) : Option SimpErr :=
  if options.targetRatio.isSome && options.targetCount.isSome then
    some (.invalidOptions "targetRatio/targetCount" doc)
  else if ratioBad options then some (.invalidOptions "targetRatio" doc)
  else if countBad options then some (.invalidOptions "targetCount" doc)
  else if errorBad options then some (.invalidOptions "error" doc)
  else none

/-- `countTriangles`: the source sums `getCount()/3` per primitive (indices
when present, else positions) in floating point and floors the total; in
exact arithmetic that is the integer division of the summed counts by 3. -/
def countTriangles (document : Document) : Nat :=
  ((document.allPrims.map fun p =>
    match p.indices with
    | some iid =>
      (match getAcc document.accessors iid with
        | some a => a.getCount
        | none => 0)
    | none =>
      match p.position with
      | some pid =>
        (match getAcc document.accessors pid with
          | some a => a.getCount
          | none => 0)
      | none => 0).sum) / 3

/-- `countMeshes`. -/
def countMeshes (document : Document) : Nat := document.meshes.length

/-- `simplifyMesh`.  The external `weld()` and `simplify()` transforms are
parameters; the theorems hold for every behaviour of them. -/
def simplifyMesh (weldFn : Document → Except String Document)
    (simplifyFn : SimplifyParams → Document → Except String Document)
    (document : Document) (options : SimplifyOptions) :
    Except SimpErr (SimplifyStats × Document) :=
  match validateOptions document options with
  | some e => .error e
  | none =>
    let mergedError := options.error.getD (mkRat 1 100)
    let mergedLockBorder := options.lockBorder.getD false
    let originalTriangles := countTriangles document
    let meshesProcessed := countMeshes document
    if originalTriangles = 0 || meshesProcessed = 0 then
      .ok ({ originalTriangles := 0, simplifiedTriangles := 0,
             reductionRatio := 1, meshesProcessed := 0 }, document)
    else
      let targetRatio : ℚ :=
        match options.targetCount with
        | some c =>
          let q := JsNum.rDiv c (mkRat originalTriangles 1)
          if JsNum.rLt q 1 then q else 1
        | none =>
          match options.targetRatio with
          | some r => r
          | none => mkRat 1 2
      match weldFn document with
      | .error e => .error (.external e)
      | .ok doc1 =>
        let params : SimplifyParams := { ratio := targetRatio, error := mergedError, lockBorder := mergedLockBorder }
        match simplifyFn params doc1 with
        | .error e => .error (.external e)
        | .ok doc2 =>
          let simplifiedTriangles := countTriangles doc2
          .ok ({ originalTriangles := originalTriangles,
                 simplifiedTriangles := simplifiedTriangles,
                 reductionRatio :=
                   if 0 < originalTriangles then
                     JsNum.rDiv (mkRat simplifiedTriangles 1)
                       (mkRat originalTriangles 1)
                   else 1,
                 meshesProcessed := meshesProcessed }, doc2)

end MeshSimplifier

/-! ## Mesh merger (`src/components/mesh-merger.ts`) -/

namespace MeshMerger

/-- `MergeStats`. -/
structure MergeStats where
  originalMeshCount : Nat
  mergedMeshCount : Nat
  meshesReduced : Nat
deriving DecidableEq, Repr

/-- The grouping key under which the join model considers primitives
compatible: the material together with the attribute-layout fingerprint. -/
structure PrimKey where
  material : Option Nat
  hasPosition : Bool
  hasNormal : Bool
  hasTexcoord0 : Bool
  hasTexcoord1 : Bool
  hasTangent : Bool
  hasIndices : Bool
deriving DecidableEq, Repr

/-- The grouping key of a primitive. -/
def primKey (p : Primitive) : PrimKey :=
  { material := p.material, hasPosition := p.position.isSome,
    hasNormal := p.normal.isSome, hasTexcoord0 := p.texcoord0.isSome,
    hasTexcoord1 := p.texcoord1.isSome, hasTangent := p.tangent.isSome,
    hasIndices := p.indices.isSome }

/-- Modelled from the spec: `join()` of @gltf-transform/functions is
library code outside this repository.  Per spec §4.4, it merges primitives
sharing an identical effective material into a single primitive per
material when layouts permit, leaves primitives lacking materials alone,
and never removes a material.  The model groups the material-carrying
primitives by (material, layout) and keeps one representative primitive
per group (geometry concatenation is abstracted away — no claim observes
vertex data across a join), collecting everything into a single mesh. -/
def joinModel (document : Document) : Document :=
  let prims := document.allPrims
  let primsWithMat := prims.filter fun p => p.material.isSome
  let keys := (primsWithMat.map primKey).dedup
  let merged := keys.filterMap fun k =>
    primsWithMat.find? fun p => decide (primKey p = k)
  { document with
    meshes := [⟨merged ++ prims.filter fun p => p.material.isNone⟩] }

/-- `merge`: count, join unless there is at most one mesh, recount. -/
def merge (document : Document) : MergeStats × Document :=
  let originalMeshCount := document.meshes.length
  if originalMeshCount ≤ 1 then
    ({ originalMeshCount := originalMeshCount,
       mergedMeshCount := originalMeshCount, meshesReduced := 0 }, document)
  else
    let doc2 := joinModel document
    let mergedMeshCount := doc2.meshes.length
    ({ originalMeshCount := originalMeshCount,
       mergedMeshCount := mergedMeshCount,
       meshesReduced := originalMeshCount - mergedMeshCount }, doc2)

end MeshMerger

/-! ## Pipeline scheduler (`src/components/optimization-pipeline.ts`) -/

namespace Pipeline

/-- The eight step names, in `OPTIMIZATION_ORDER` order. -/
inductive StepName where
  | repairInput
  | clean
  | merge
  | simplify
  | quantize
  | draco
  | texture
  | repairOutput
deriving DecidableEq, Repr

/-- `OPTIMIZATION_ORDER`. -/
def OPTIMIZATION_ORDER : List StepName :=
  [.repairInput, .clean, .merge, .simplify, .quantize, .draco, .texture,
    .repairOutput]

/-- `CleanOptions`. -/
structure CleanOptions where
  enabled : Bool
  removeUnusedNodes : Option Bool := none
  removeUnusedMaterials : Option Bool := none
  removeUnusedTextures : Option Bool := none
deriving DecidableEq, Repr

/-- `MergeOptions`. -/
structure MergeOptions where
  enabled : Bool
deriving DecidableEq, Repr

/-- `QuantizeOptions`. -/
structure QuantizeOptions where
  enabled : Bool
  quantizePosition : Option Bool := none
  quantizeNormal : Option Bool := none
  quantizeTexcoord : Option Bool := none
  quantizeColor : Option Bool := none
deriving DecidableEq, Repr

/-- `OptimizationOptions`: one optional options object per user step. -/
structure OptimizationOptions where
  simplify : Option MeshSimplifier.SimplifyOptions := none
  draco : Option DracoCompressor.DracoOptions := none
  texture : Option TextureCompressor.TextureOptions := none
  quantize : Option QuantizeOptions := none
  merge : Option MergeOptions := none
  clean : Option CleanOptions := none
deriving DecidableEq, Repr

/-- `isStepEnabled`: the repair phases are unconditional, the rest read
`options[step]?.enabled ?? false`. -/
def isStepEnabled (step : StepName) (options : OptimizationOptions) : Bool :=
  match step with
  | .repairInput => true
  | .repairOutput => true
  | .clean => (options.clean.map CleanOptions.enabled).getD false
  | .merge => (options.merge.map MergeOptions.enabled).getD false
  | .simplify => (options.simplify.map MeshSimplifier.SimplifyOptions.enabled).getD false
  | .quantize => (options.quantize.map QuantizeOptions.enabled).getD false
  | .draco => (options.draco.map DracoCompressor.DracoOptions.enabled).getD false
  | .texture => (options.texture.map TextureCompressor.TextureOptions.enabled).getD false

/-- Whether the step's own options object sets `enabled` to `true` (the
user-step side of `isStepEnabled`; `false` for the two repair phases). -/
def userEnabled (step : StepName) (options : OptimizationOptions) : Bool :=
  match step with
  | .repairInput => false
  | .repairOutput => false
  | s => isStepEnabled s options

/-- The six user-gated steps, in order. -/
def userSteps : List StepName :=
  [.clean, .merge, .simplify, .quantize, .draco, .texture]

/-- The number K of user-enabled optimization steps. -/
def userEnabledCount (options : OptimizationOptions) : Nat :=
  userSteps.countP fun s => isStepEnabled s options

/-- Step statistics, modelled as a key-value record (`Record<string,
unknown>` in the source; the pipeline never inspects it). -/
abbrev Stats := List (String × ℚ)

/-- `OptimizationStepResult`.  Wall-clock durations are 0 in the model. -/
structure StepResult where
  step : StepName
  success : Bool
  duration : ℚ
  stats : Stats
  error : Option String
deriving DecidableEq, Repr

/-- `createSuccessStepResult`. -/
def createSuccessStepResult (step : StepName) (duration : ℚ) (stats : Stats) :
    StepResult :=
  { step := step, success := true, duration := duration, stats := stats,
    error := none }

/-- `createFailedStepResult`. -/
def createFailedStepResult (step : StepName) (duration : ℚ) (error : String) :
    StepResult :=
  { step := step, success := false, duration := duration, stats := [],
    error := some error }

/-- `executeStep`: invoke the component behind `step` (modelled by the
function `run`, covering the eight dispatch branches and their awaited
effects) and catch any failure into a failed step result. -/
def executeStep (run : StepName → Document → Except String (Document × Stats))
    (step : StepName) (document : Document) : StepResult × Document :=
  match run step document with
  | .ok (doc2, stats) => (createSuccessStepResult step 0 stats, doc2)
  | .error e => (createFailedStepResult step 0 e, document)

/-- `OptimizationResult`. -/
structure OptimizationResult where
  taskId : String
  success : Bool
  downloadUrl : String
  processingTime : ℚ
  originalSize : Nat
  optimizedSize : Nat
  compressionRatio : ℚ
  steps : List StepResult
deriving DecidableEq, Repr

/-- `createOptimizationResult`: fills `downloadUrl` and the compression
ratio (`1` when the original size is zero). -/
def createOptimizationResult (taskId : String) (success : Bool)
    (processingTime : ℚ) (originalSize optimizedSize : Nat)
    (steps : List StepResult) : OptimizationResult :=
  { taskId := taskId, success := success,
    downloadUrl := "/api/download/" ++ taskId,
    processingTime := processingTime, originalSize := originalSize,
    optimizedSize := optimizedSize,
    compressionRatio :=
      if 0 < originalSize then
        JsNum.rDiv (mkRat optimizedSize 1) (mkRat originalSize 1)
      else 1,
    steps := steps }

/-- The `PipelineError` throws of `executePipeline` (empty/unreadable input;
write failure, raised with step name `write`). -/
inductive PipelineError where
  | invalidFile (msg : String)
  | writeFailed (msg : String)
deriving DecidableEq, Repr

/-- What a pipeline run leaves behind: the returned result and the output
file (`some` final document exactly when `io.write` ran). -/
structure PipelineOutcome where
  result : OptimizationResult
  written : Option Document
deriving DecidableEq, Repr

/-- The step loop of `executePipeline`: run the enabled steps in order,
stopping after the first failed step result (the source returns from
inside the loop; the model reports the stop through the boolean). -/
def runLoop (run : StepName → Document → Except String (Document × Stats))
    (options : OptimizationOptions) :
    List StepName → Document → List StepResult × Document × Bool
  | [], doc => ([], doc, true)
  | s :: rest, doc =>
    match isStepEnabled s options with
    | false => runLoop run options rest doc
    | true =>
      let r := executeStep run s doc
      match r.1.success with
      | true =>
        let t := runLoop run options rest r.2
        (r.1 :: t.1, t.2.1, t.2.2)
      | false => ([r.1], r.2, false)

/-- `executePipeline`.  `originalSize` models `getFileSize(inputPath)`,
`readResult` the `io.read` outcome, `writeFn` the directory creation,
`io.write` and `getFileSize(outputPath)` combination; `run` models the
component invocations of `executeStep`.  Wall-clock times are 0. -/
def executePipeline (run : StepName → Document → Except String (Document × Stats))
    (taskId : String) (originalSize : Nat)
    (readResult : Except String Document) (options : OptimizationOptions)
    (writeFn : Document → Except String Nat) :
    Except PipelineError PipelineOutcome :=
  if originalSize = 0 then
    .error (.invalidFile "Input file not found or empty")
  else
    match readResult with
    | .error e => .error (.invalidFile e)
    | .ok document =>
      let t := runLoop run options OPTIMIZATION_ORDER document
      if t.2.2 then
        match writeFn t.2.1 with
        | .error e => .error (.writeFailed e)
        | .ok optimizedSize =>
          .ok { result := createOptimizationResult taskId true 0 originalSize
                  optimizedSize t.1,
                written := some t.2.1 }
      else
        .ok { result := createOptimizationResult taskId false 0 originalSize
                originalSize t.1,
              written := none }

end Pipeline

/-! ## Concrete documents used by counterexamples and witnesses -/

/-- A document with a single primitive whose NORMAL accessor holds one
`NaN` component (and no other attribute): `repairInput` zeroes the
component but reports `invalidVerticesFixed = 0`. -/
def cdocC3 : Document :=
  { accessors :=
      [some { type := .vec3, ctype := .f32, data := some [.nan, .fin 0, .fin 1] }],
    meshes := [⟨[{ normal := some 0 }]⟩] }

/-- A document with a `NaN` in POSITION and one in TEXCOORD_0, used to
witness the amended count. -/
def cdocC3w : Document :=
  { accessors :=
      [some { type := .vec3, ctype := .f32, data := some [.fin 2, .nan, .fin 3] },
        some { type := .vec2, ctype := .f32, data := some [.nan, .fin 1] }],
    meshes := [⟨[{ position := some 0, texcoord0 := some 1 }]⟩] }

/-- A document with a single primitive carrying a valid VEC4 tangent. -/
def cdocC8 : Document :=
  { accessors :=
      [some { type := .vec4, ctype := .f32, data := some [.fin 1, .fin 0, .fin 0, .fin 1] }],
    meshes := [⟨[{ tangent := some 0 }]⟩] }

/-- A document with 12 bytes of geometry in one primitive. -/
def cdocC1 : Document :=
  { accessors :=
      [some { type := .vec3, ctype := .f32, data := some [.fin 1, .fin 0, .fin 0] }],
    meshes := [⟨[{ position := some 0 }]⟩] }

/-- A Draco transform that succeeds without touching the document. -/
def idDracoTransform : DracoCompressor.DracoParams → Document → Except String Document :=
  fun _ d => .ok d

/-- The stats `compressDraco` reports on `cdocC1` (any level):
`round(12 · 0.15) = 2`. -/
def statsC1 : DracoCompressor.DracoStats :=
  { meshesCompressed := 1, originalSize := 12, compressedSize := 2,
    compressionRatio := mkRat 1 6 }

/-- A document with one texture whose image is `null`. -/
def cdocC2 : Document := { textures := [{ name := "t" }] }

/-- A document with two textures carrying non-empty images. -/
def cdocC2w : Document :=
  { textures := [{ name := "a", image := some [1, 2, 3] },
                 { name := "b", image := some [4] }] }

/-- A `toktx` encoder that returns the input bytes unchanged. -/
def toktxStub : List Nat → String → TextureCompressor.TextureMode → ℚ →
    Except String (List Nat) := fun d _ _ _ => .ok d

/-- A `sharp` encoder that returns the input bytes unchanged. -/
def sharpStub : List Nat → ℚ → Except String (List Nat) := fun d _ => .ok d

/-- A pipeline step driver on which every component succeeds with empty
stats and an unchanged document. -/
def runOkStub : Pipeline.StepName → Document →
    Except String (Document × Pipeline.Stats) := fun _ d => .ok (d, [])

/-- A pipeline step driver on which the clean component throws. -/
def runFailClean : Pipeline.StepName → Document →
    Except String (Document × Pipeline.Stats) :=
  fun s d => if s = .clean then .error "clean failed" else .ok (d, [])

/-- A writer that reports a 3-byte output file. -/
def writeOkStub : Document → Except String Nat := fun _ => .ok 3

/-- Options enabling only the clean step. -/
def optsClean : Pipeline.OptimizationOptions := { clean := some { enabled := true } }

/-- Options enabling simplify and draco. -/
def optsC6 : Pipeline.OptimizationOptions := { simplify := some {}, draco := some {} }

/-- The outcome of the failing `runFailClean` pipeline run used by the
pipeline witnesses. -/
def outcomeFail : Pipeline.PipelineOutcome :=
  { result := Pipeline.createOptimizationResult "t" false 0 5 5
      [Pipeline.createSuccessStepResult .repairInput 0 [],
        Pipeline.createFailedStepResult .clean 0 "clean failed"],
    written := none }

/-- The outcome of the successful `runOkStub` run with simplify and draco
enabled. -/
def outcomeC6 : Pipeline.PipelineOutcome :=
  { result := Pipeline.createOptimizationResult "t" true 0 5 3
      [Pipeline.createSuccessStepResult .repairInput 0 [],
        Pipeline.createSuccessStepResult .simplify 0 [],
        Pipeline.createSuccessStepResult .draco 0 [],
        Pipeline.createSuccessStepResult .repairOutput 0 []],
    written := some {} }

/-! ## Theorems -/

namespace GeometryFixer

theorem getAcc_eq_getElem (st : AccessorStore) (id : Nat) :
    getAcc st id = (st[id]?).getD none := by
  rw [getAcc, List.getD_eq_getElem?_getD]

theorem getAcc_lt_length {st : AccessorStore} {id : Nat} {acc : Accessor}
    (h : getAcc st id = some acc) : id < st.length := by
  by_contra hge
  rw [getAcc_eq_getElem, List.getElem?_eq_none (by omega)] at h
  exact Option.noConfusion h

theorem getAcc_append {st l : AccessorStore} {id : Nat} (h : id < st.length) :
    getAcc (st ++ l) id = getAcc st id := by
  rw [getAcc_eq_getElem, getAcc_eq_getElem, List.getElem?_append_left h]

theorem getAcc_setAcc_ne {st : AccessorStore} {id j : Nat} {a : Accessor}
    (h : id ≠ j) : getAcc (setAcc st id a) j = getAcc st j := by
  rw [getAcc_eq_getElem, getAcc_eq_getElem, setAcc, List.getElem?_set_ne h]

theorem getAcc_setAcc_self {st : AccessorStore} {id : Nat} {a : Accessor}
    (h : id < st.length) : getAcc (setAcc st id a) id = some a := by
  rw [getAcc_eq_getElem, setAcc, List.getElem?_set_self']
  rw [List.getElem?_eq_getElem h]
  rfl

theorem setAcc_length (st : AccessorStore) (id : Nat) (a : Accessor) :
    (setAcc st id a).length = st.length := by
  simp [setAcc]

theorem map_fixVal_of_not_hasNonFinite {arr : List JsNum}
    (h : hasNonFinite arr = false) : arr.map fixVal = arr := by
  induction arr with
  | nil => rfl
  | cons x xs ih =>
    simp only [hasNonFinite, List.any_cons, Bool.or_eq_false_iff] at h
    have hx : x.isFiniteJ = true := by simpa using h.1
    have hxs : hasNonFinite xs = false := by simpa [hasNonFinite] using h.2
    simp [fixVal, hx, ih hxs]

theorem countP_eq_zero_of_not_hasNonFinite {arr : List JsNum}
    (h : hasNonFinite arr = false) :
    (arr.countP fun x => !x.isFiniteJ) = 0 := by
  rw [List.countP_eq_zero]
  intro a ha
  simp only [hasNonFinite, List.any_eq_false] at h
  exact h a ha

theorem fixAttrAt_length (st : AccessorStore) (o : Option Nat) :
    (fixAttrAt st o).1.length = st.length := by
  unfold fixAttrAt
  repeat' split
  all_goals simp [setAcc_length]

theorem fixAttrAt_frame {st : AccessorStore} {o : Option Nat} {j : Nat}
    (h : o ≠ some j) : getAcc (fixAttrAt st o).1 j = getAcc st j := by
  unfold fixAttrAt
  split
  · rfl
  · next id =>
    have hij : id ≠ j := fun he => h (by rw [he])
    split
    · rfl
    · split
      · rfl
      · split
        · exact getAcc_setAcc_ne hij
        · rfl

theorem fixAttrAt_count (st : AccessorStore) (o : Option Nat) :
    (fixAttrAt st o).2 = fixCount st o := by
  unfold fixAttrAt fixCount
  split
  · rfl
  · split
    · rfl
    · next acc heq =>
      split
      · rfl
      · next arr hd =>
        split
        · next hc => simp [fixNonFinite, hc.1]
        · next hc =>
          rcases Decidable.not_and_iff_or_not.mp hc with hc1 | hc2
          · simp [hc1]
          · have hz := countP_eq_zero_of_not_hasNonFinite
              (Bool.not_eq_true _ ▸ hc2)
            simp [hz]

theorem fixAttrAt_effect {st : AccessorStore} {id : Nat} {acc : Accessor}
    {arr : List JsNum} (h : getAcc st id = some acc) (hf : acc.ctype = .f32)
    (hd : acc.data = some arr) :
    getAcc (fixAttrAt st (some id)).1 id =
      some { acc with data := some (arr.map fixVal) } := by
  by_cases hnf : hasNonFinite arr
  · simp only [fixAttrAt, h, hd, hf, hnf, and_self, if_true, fixNonFinite]
    exact getAcc_setAcc_self (getAcc_lt_length h)
  · have hcond : ¬(acc.ctype = .f32 ∧ hasNonFinite arr = true) := by
      simp [hnf]
    simp only [fixAttrAt, h, hd, if_neg hcond]
    rw [map_fixVal_of_not_hasNonFinite (Bool.not_eq_true _ ▸ hnf), ← hd]

theorem fixAttrAt_isSome {st : AccessorStore} {o : Option Nat} {id : Nat}
    (h : (getAcc st id).isSome) : (getAcc (fixAttrAt st o).1 id).isSome := by
  by_cases he : o = some id
  · subst he
    rcases Option.isSome_iff_exists.mp h with ⟨acc, hacc⟩
    cases hd : acc.data with
    | none =>
      simp only [fixAttrAt, hacc, hd]
      simp [hacc]
    | some arr =>
      by_cases hc : acc.ctype = .f32 ∧ hasNonFinite arr = true
      · simp only [fixAttrAt, hacc, hd, if_pos hc]
        rw [getAcc_setAcc_self (getAcc_lt_length hacc)]
        rfl
      · simp only [fixAttrAt, hacc, hd, if_neg hc]
        simp [hacc]
  · rw [fixAttrAt_frame he]
    exact h

theorem isTangentValid_data {acc : Accessor} (h : isTangentValid acc = true) :
    ∃ arr, acc.data = some arr ∧ arr ≠ [] ∧ hasNonFinite arr = false := by
  unfold isTangentValid at h
  by_cases ht : acc.type = .vec4
  case neg => simp [ht] at h
  simp only [ht, ne_eq, not_true_eq_false, if_false] at h
  cases hd : acc.data with
  | none => simp only [hd] at h; exact absurd h (by simp)
  | some arr =>
    simp only [hd] at h
    by_cases hlen : arr.length = 0
    · rw [if_pos hlen] at h
      exact absurd h (by simp)
    · rw [if_neg hlen] at h
      by_cases hnf : hasNonFinite arr = true
      · rw [if_pos hnf] at h
        exact absurd h (by simp)
      · exact ⟨arr, rfl, fun he => hlen (by simp [he]),
          Bool.not_eq_true _ ▸ hnf⟩

theorem fixAttrAt_preservesValid (st : AccessorStore) (o : Option Nat) :
    preservesValid st (fixAttrAt st o).1 := by
  intro id acc hacc hvalid
  by_cases he : o = some id
  · subst he
    rcases isTangentValid_data hvalid with ⟨arr, hd, _, hnf⟩
    have hcond : ¬(acc.ctype = .f32 ∧ hasNonFinite arr = true) := by
      simp [hnf]
    simp only [fixAttrAt, hacc, hd, if_neg hcond]
  · rw [fixAttrAt_frame he]
    exact hacc

theorem mem_attrIds {p : Primitive} {j : Nat} :
    j ∈ attrIds p ↔
      p.position = some j ∨ p.normal = some j ∨ p.texcoord0 = some j ∨
        p.texcoord1 = some j := by
  simp only [attrIds, List.reduceOption_mem_iff, List.mem_cons,
    List.not_mem_nil, or_false, eq_comm]

theorem four_reduceOption_nodup {o1 o2 o3 o4 : Option Nat}
    (h : ([o1, o2, o3, o4].reduceOption).Nodup) :
    (∀ j, o1 = some j → o2 ≠ some j) ∧ (∀ j, o1 = some j → o3 ≠ some j) ∧
    (∀ j, o1 = some j → o4 ≠ some j) ∧ (∀ j, o2 = some j → o3 ≠ some j) ∧
    (∀ j, o2 = some j → o4 ≠ some j) ∧ (∀ j, o3 = some j → o4 ≠ some j) := by
  rcases o1 with _ | a <;> rcases o2 with _ | b <;> rcases o3 with _ | c <;>
    rcases o4 with _ | d <;> simp_all [List.reduceOption] <;> tauto

theorem fixCount_congr {st1 st : AccessorStore} {o : Option Nat}
    (h : ∀ id, o = some id → getAcc st1 id = getAcc st id) :
    fixCount st1 o = fixCount st o := by
  cases o with
  | none => rfl
  | some id =>
    simp only [fixCount]
    rw [h id rfl]

theorem regenNormal_getAcc (st : AccessorStore) (p : Primitive)
    (c : GeometryFixResult) {id : Nat} (h : id < st.length) :
    getAcc (regenNormal st p c).1 id = getAcc st id := by
  unfold regenNormal
  split
  · rfl
  · exact getAcc_append h

theorem regenNormal_length (st : AccessorStore) (p : Primitive)
    (c : GeometryFixResult) : st.length ≤ (regenNormal st p c).1.length := by
  unfold regenNormal
  split
  · exact Nat.le_refl _
  · simp

theorem regenNormal_position (st : AccessorStore) (p : Primitive)
    (c : GeometryFixResult) : (regenNormal st p c).2.1.position = p.position := by
  unfold regenNormal
  split <;> rfl

theorem regenNormal_texcoord0 (st : AccessorStore) (p : Primitive)
    (c : GeometryFixResult) : (regenNormal st p c).2.1.texcoord0 = p.texcoord0 := by
  unfold regenNormal
  split <;> rfl

theorem regenNormal_texcoord1 (st : AccessorStore) (p : Primitive)
    (c : GeometryFixResult) : (regenNormal st p c).2.1.texcoord1 = p.texcoord1 := by
  unfold regenNormal
  split <;> rfl

theorem regenNormal_tangent (st : AccessorStore) (p : Primitive)
    (c : GeometryFixResult) : (regenNormal st p c).2.1.tangent = p.tangent := by
  unfold regenNormal
  split <;> rfl

theorem regenNormal_invalid (st : AccessorStore) (p : Primitive)
    (c : GeometryFixResult) :
    (regenNormal st p c).2.2.invalidVerticesFixed = c.invalidVerticesFixed := by
  unfold regenNormal
  split <;> rfl

theorem normalRegenStep_getAcc (st : AccessorStore) (p : Primitive)
    (c : GeometryFixResult) {id : Nat} (h : id < st.length) :
    getAcc (normalRegenStep st p c).1 id = getAcc st id := by
  unfold normalRegenStep
  repeat' split
  all_goals first
    | rfl
    | exact regenNormal_getAcc st p c h

theorem normalRegenStep_length (st : AccessorStore) (p : Primitive)
    (c : GeometryFixResult) : st.length ≤ (normalRegenStep st p c).1.length := by
  unfold normalRegenStep
  repeat' split
  all_goals first
    | exact Nat.le_refl _
    | exact regenNormal_length st p c

theorem normalRegenStep_position (st : AccessorStore) (p : Primitive)
    (c : GeometryFixResult) :
    (normalRegenStep st p c).2.1.position = p.position := by
  unfold normalRegenStep
  repeat' split
  all_goals first
    | rfl
    | exact regenNormal_position st p c

theorem normalRegenStep_texcoord0 (st : AccessorStore) (p : Primitive)
    (c : GeometryFixResult) :
    (normalRegenStep st p c).2.1.texcoord0 = p.texcoord0 := by
  unfold normalRegenStep
  repeat' split
  all_goals first
    | rfl
    | exact regenNormal_texcoord0 st p c

theorem normalRegenStep_texcoord1 (st : AccessorStore) (p : Primitive)
    (c : GeometryFixResult) :
    (normalRegenStep st p c).2.1.texcoord1 = p.texcoord1 := by
  unfold normalRegenStep
  repeat' split
  all_goals first
    | rfl
    | exact regenNormal_texcoord1 st p c

theorem normalRegenStep_tangent (st : AccessorStore) (p : Primitive)
    (c : GeometryFixResult) :
    (normalRegenStep st p c).2.1.tangent = p.tangent := by
  unfold normalRegenStep
  repeat' split
  all_goals first
    | rfl
    | exact regenNormal_tangent st p c

theorem normalRegenStep_invalid (st : AccessorStore) (p : Primitive)
    (c : GeometryFixResult) :
    (normalRegenStep st p c).2.2.invalidVerticesFixed =
      c.invalidVerticesFixed := by
  unfold normalRegenStep
  repeat' split
  all_goals first
    | rfl
    | exact regenNormal_invalid st p c

theorem normalEnsureStep_getAcc (st : AccessorStore) (p : Primitive)
    (c : GeometryFixResult) {id : Nat} (h : id < st.length) :
    getAcc (normalEnsureStep st p c).1 id = getAcc st id := by
  unfold normalEnsureStep
  repeat' split
  all_goals first
    | rfl
    | exact regenNormal_getAcc st p c h

theorem normalEnsureStep_length (st : AccessorStore) (p : Primitive)
    (c : GeometryFixResult) : st.length ≤ (normalEnsureStep st p c).1.length := by
  unfold normalEnsureStep
  repeat' split
  all_goals first
    | exact Nat.le_refl _
    | exact regenNormal_length st p c

theorem normalEnsureStep_position (st : AccessorStore) (p : Primitive)
    (c : GeometryFixResult) :
    (normalEnsureStep st p c).2.1.position = p.position := by
  unfold normalEnsureStep
  repeat' split
  all_goals first
    | rfl
    | exact regenNormal_position st p c

theorem normalEnsureStep_texcoord0 (st : AccessorStore) (p : Primitive)
    (c : GeometryFixResult) :
    (normalEnsureStep st p c).2.1.texcoord0 = p.texcoord0 := by
  unfold normalEnsureStep
  repeat' split
  all_goals first
    | rfl
    | exact regenNormal_texcoord0 st p c

theorem normalEnsureStep_texcoord1 (st : AccessorStore) (p : Primitive)
    (c : GeometryFixResult) :
    (normalEnsureStep st p c).2.1.texcoord1 = p.texcoord1 := by
  unfold normalEnsureStep
  repeat' split
  all_goals first
    | rfl
    | exact regenNormal_texcoord1 st p c

theorem normalEnsureStep_tangent (st : AccessorStore) (p : Primitive)
    (c : GeometryFixResult) :
    (normalEnsureStep st p c).2.1.tangent = p.tangent := by
  unfold normalEnsureStep
  repeat' split
  all_goals first
    | rfl
    | exact regenNormal_tangent st p c

theorem normalEnsureStep_invalid (st : AccessorStore) (p : Primitive)
    (c : GeometryFixResult) :
    (normalEnsureStep st p c).2.2.invalidVerticesFixed =
      c.invalidVerticesFixed := by
  unfold normalEnsureStep
  repeat' split
  all_goals first
    | rfl
    | exact regenNormal_invalid st p c

theorem tangentDropStep_store (st : AccessorStore) (p : Primitive)
    (c : GeometryFixResult) : (tangentDropStep st p c).1 = st := by
  unfold tangentDropStep
  repeat' split
  all_goals rfl

theorem tangentDropStep_position (st : AccessorStore) (p : Primitive)
    (c : GeometryFixResult) :
    (tangentDropStep st p c).2.1.position = p.position := by
  unfold tangentDropStep
  repeat' split
  all_goals rfl

theorem tangentDropStep_texcoord0 (st : AccessorStore) (p : Primitive)
    (c : GeometryFixResult) :
    (tangentDropStep st p c).2.1.texcoord0 = p.texcoord0 := by
  unfold tangentDropStep
  repeat' split
  all_goals rfl

theorem tangentDropStep_texcoord1 (st : AccessorStore) (p : Primitive)
    (c : GeometryFixResult) :
    (tangentDropStep st p c).2.1.texcoord1 = p.texcoord1 := by
  unfold tangentDropStep
  repeat' split
  all_goals rfl

theorem tangentDropStep_invalid (st : AccessorStore) (p : Primitive)
    (c : GeometryFixResult) :
    (tangentDropStep st p c).2.2.invalidVerticesFixed =
      c.invalidVerticesFixed := by
  unfold tangentDropStep
  repeat' split
  all_goals rfl

theorem tangentDropStep_tangentOK (st : AccessorStore) (p : Primitive)
    (c : GeometryFixResult) (h : tangentResolves st p) :
    tangentOK st (tangentDropStep st p c).2.1 := by
  intro tid htid
  rcases hp : p.tangent with _ | tid0
  · simp only [tangentDropStep, hp] at htid
    cases htid
  · rcases hg : getAcc st tid0 with _ | acc
    · have hres := h tid0 hp
      rw [hg] at hres
      simp at hres
    · by_cases hv : isTangentValid acc = true
      · simp only [tangentDropStep, hp, hg, if_pos hv] at htid
        cases htid
        exact ⟨acc, hg, hv⟩
      · simp only [tangentDropStep, hp, hg, if_neg hv] at htid
        simp at htid

theorem preservesValid_trans {a b c : AccessorStore}
    (h1 : preservesValid a b) (h2 : preservesValid b c) : preservesValid a c :=
  fun id acc ha hv => h2 id acc (h1 id acc ha hv) hv

theorem tangentOK_mono {st st' : AccessorStore} {p : Primitive}
    (h : tangentOK st p) (hp : preservesValid st st') : tangentOK st' p := by
  intro tid htid
  rcases h tid htid with ⟨acc, ha, hv⟩
  exact ⟨acc, hp tid acc ha hv, hv⟩

theorem normalRegenStep_preservesValid (st : AccessorStore) (p : Primitive)
    (c : GeometryFixResult) : preservesValid st (normalRegenStep st p c).1 := by
  intro id acc ha _
  rw [normalRegenStep_getAcc st p c (getAcc_lt_length ha)]
  exact ha

theorem normalEnsureStep_preservesValid (st : AccessorStore) (p : Primitive)
    (c : GeometryFixResult) : preservesValid st (normalEnsureStep st p c).1 := by
  intro id acc ha _
  rw [normalEnsureStep_getAcc st p c (getAcc_lt_length ha)]
  exact ha

theorem normalRegenStep_isSome (st : AccessorStore) (p : Primitive)
    (c : GeometryFixResult) {id : Nat} (h : (getAcc st id).isSome) :
    (getAcc (normalRegenStep st p c).1 id).isSome := by
  rcases Option.isSome_iff_exists.mp h with ⟨acc, hacc⟩
  rw [normalRegenStep_getAcc st p c (getAcc_lt_length hacc)]
  exact h

theorem normalEnsureStep_isSome (st : AccessorStore) (p : Primitive)
    (c : GeometryFixResult) {id : Nat} (h : (getAcc st id).isSome) :
    (getAcc (normalEnsureStep st p c).1 id).isSome := by
  rcases Option.isSome_iff_exists.mp h with ⟨acc, hacc⟩
  rw [normalEnsureStep_getAcc st p c (getAcc_lt_length hacc)]
  exact h

theorem processPrimInput_length (st : AccessorStore) (c : GeometryFixResult)
    (p : Primitive) : st.length ≤ (processPrimInput st c p).1.length := by
  simp only [processPrimInput]
  rw [tangentDropStep_store, fixAttrAt_length, fixAttrAt_length]
  exact le_trans (by rw [fixAttrAt_length, fixAttrAt_length])
    (normalRegenStep_length _ _ _)

theorem processPrimOutput_length (st : AccessorStore) (c : GeometryFixResult)
    (p : Primitive) : st.length ≤ (processPrimOutput st c p).1.length := by
  simp only [processPrimOutput]
  rw [fixAttrAt_length, fixAttrAt_length, tangentDropStep_store]
  exact le_trans (by rw [fixAttrAt_length]) (normalEnsureStep_length _ _ _)

theorem processPrimInput_preservesValid (st : AccessorStore)
    (c : GeometryFixResult) (p : Primitive) :
    preservesValid st (processPrimInput st c p).1 := by
  simp only [processPrimInput]
  rw [tangentDropStep_store]
  exact preservesValid_trans
    (preservesValid_trans
      (preservesValid_trans
        (preservesValid_trans (fixAttrAt_preservesValid _ _)
          (fixAttrAt_preservesValid _ _))
        (normalRegenStep_preservesValid _ _ _))
      (fixAttrAt_preservesValid _ _))
    (fixAttrAt_preservesValid _ _)

theorem processPrimOutput_preservesValid (st : AccessorStore)
    (c : GeometryFixResult) (p : Primitive) :
    preservesValid st (processPrimOutput st c p).1 := by
  simp only [processPrimOutput]
  rw [tangentDropStep_store]
  exact preservesValid_trans
    (preservesValid_trans
      (preservesValid_trans (fixAttrAt_preservesValid _ _)
        (normalEnsureStep_preservesValid _ _ _))
      (fixAttrAt_preservesValid _ _))
    (fixAttrAt_preservesValid _ _)

theorem processPrimInput_isSome (st : AccessorStore) (c : GeometryFixResult)
    (p : Primitive) {id : Nat} (h : (getAcc st id).isSome) :
    (getAcc (processPrimInput st c p).1 id).isSome := by
  simp only [processPrimInput]
  rw [tangentDropStep_store]
  exact fixAttrAt_isSome (fixAttrAt_isSome
    (normalRegenStep_isSome _ _ _ (fixAttrAt_isSome (fixAttrAt_isSome h))))

theorem processPrimOutput_isSome (st : AccessorStore) (c : GeometryFixResult)
    (p : Primitive) {id : Nat} (h : (getAcc st id).isSome) :
    (getAcc (processPrimOutput st c p).1 id).isSome := by
  simp only [processPrimOutput]
  rw [tangentDropStep_store]
  exact fixAttrAt_isSome (fixAttrAt_isSome
    (normalEnsureStep_isSome _ _ _ (fixAttrAt_isSome h)))

theorem processPrimInput_tangentOK (st : AccessorStore) (c : GeometryFixResult)
    (p : Primitive) (h : tangentResolves st p) :
    tangentOK (processPrimInput st c p).1 (processPrimInput st c p).2.1 := by
  simp only [processPrimInput]
  rw [tangentDropStep_store]
  apply tangentDropStep_tangentOK
  intro tid htid
  rw [normalRegenStep_tangent] at htid
  exact fixAttrAt_isSome (fixAttrAt_isSome
    (normalRegenStep_isSome _ _ _ (fixAttrAt_isSome (fixAttrAt_isSome
      (h tid htid)))))

theorem processPrimOutput_tangentOK (st : AccessorStore) (c : GeometryFixResult)
    (p : Primitive) (h : tangentResolves st p) :
    tangentOK (processPrimOutput st c p).1 (processPrimOutput st c p).2.1 := by
  simp only [processPrimOutput]
  rw [tangentDropStep_store]
  refine tangentOK_mono (tangentDropStep_tangentOK _ _ _ ?_) ?_
  · intro tid htid
    rw [normalEnsureStep_tangent] at htid
    exact normalEnsureStep_isSome _ _ _ (fixAttrAt_isSome (h tid htid))
  · exact preservesValid_trans (fixAttrAt_preservesValid _ _)
      (fixAttrAt_preservesValid _ _)

theorem processPrimInput_frame (st : AccessorStore) (c : GeometryFixResult)
    (p : Primitive) {j : Nat} (hj : j < st.length) (hnot : j ∉ attrIds p) :
    getAcc (processPrimInput st c p).1 j = getAcc st j := by
  have h1 : p.position ≠ some j := fun he => hnot (mem_attrIds.mpr (Or.inl he))
  have h2 : p.normal ≠ some j := fun he =>
    hnot (mem_attrIds.mpr (Or.inr (Or.inl he)))
  have h3 : p.texcoord0 ≠ some j := fun he =>
    hnot (mem_attrIds.mpr (Or.inr (Or.inr (Or.inl he))))
  have h4 : p.texcoord1 ≠ some j := fun he =>
    hnot (mem_attrIds.mpr (Or.inr (Or.inr (Or.inr he))))
  simp only [processPrimInput]
  rw [tangentDropStep_store, normalRegenStep_texcoord1, normalRegenStep_texcoord0]
  rw [fixAttrAt_frame h4, fixAttrAt_frame h3]
  rw [normalRegenStep_getAcc _ _ _
    (by rw [fixAttrAt_length, fixAttrAt_length]; exact hj)]
  rw [fixAttrAt_frame h2, fixAttrAt_frame h1]

theorem processPrimInput_count (st : AccessorStore) (c : GeometryFixResult)
    (p : Primitive) (hnd : (attrIds p).Nodup)
    (hlt : ∀ id ∈ attrIds p, id < st.length) :
    (processPrimInput st c p).2.2.invalidVerticesFixed =
      c.invalidVerticesFixed + primFixCount st p := by
  have hnd4 : (([p.position, p.normal, p.texcoord0, p.texcoord1]).reduceOption).Nodup := hnd
  obtain ⟨d12, d13, d14, d23, d24, d34⟩ := four_reduceOption_nodup hnd4
  simp only [processPrimInput, tangentDropStep_invalid]
  rw [normalRegenStep_texcoord1, normalRegenStep_texcoord0]
  rw [fixAttrAt_count, fixAttrAt_count, fixAttrAt_count, normalRegenStep_invalid]
  have ht0 : fixCount (normalRegenStep (fixAttrAt (fixAttrAt st p.position).1
      p.normal).1 p { c with
        totalPrimitivesProcessed := c.totalPrimitivesProcessed + 1,
        invalidVerticesFixed :=
          c.invalidVerticesFixed + (fixAttrAt st p.position).2 }).1 p.texcoord0 =
      fixCount st p.texcoord0 := by
    apply fixCount_congr
    intro id hid
    have hlt0 : id < st.length := hlt id (mem_attrIds.mpr (Or.inr (Or.inr (Or.inl hid))))
    rw [normalRegenStep_getAcc _ _ _
      (by rw [fixAttrAt_length, fixAttrAt_length]; exact hlt0)]
    rw [fixAttrAt_frame (fun he => d23 id he hid),
      fixAttrAt_frame (fun he => d13 id he hid)]
  have ht1 : fixCount (fixAttrAt (normalRegenStep (fixAttrAt (fixAttrAt st
      p.position).1 p.normal).1 p { c with
        totalPrimitivesProcessed := c.totalPrimitivesProcessed + 1,
        invalidVerticesFixed :=
          c.invalidVerticesFixed + (fixAttrAt st p.position).2 }).1
      p.texcoord0).1 p.texcoord1 = fixCount st p.texcoord1 := by
    apply fixCount_congr
    intro id hid
    have hlt1 : id < st.length := hlt id (mem_attrIds.mpr (Or.inr (Or.inr (Or.inr hid))))
    rw [fixAttrAt_frame (fun he => d34 id he hid)]
    rw [normalRegenStep_getAcc _ _ _
      (by rw [fixAttrAt_length, fixAttrAt_length]; exact hlt1)]
    rw [fixAttrAt_frame (fun he => d24 id he hid),
      fixAttrAt_frame (fun he => d14 id he hid)]
  rw [fixAttrAt_count] at ht0 ht1
  rw [ht0, ht1]
  simp only [primFixCount]
  omega

theorem processPrimInput_effect_position (st : AccessorStore)
    (c : GeometryFixResult) (p : Primitive) (hnd : (attrIds p).Nodup)
    {id : Nat} {acc : Accessor} {arr : List JsNum}
    (hid : p.position = some id) (hacc : getAcc st id = some acc)
    (hf : acc.ctype = .f32) (hd : acc.data = some arr) :
    getAcc (processPrimInput st c p).1 id =
      some { acc with data := some (arr.map fixVal) } := by
  have hnd4 : (([p.position, p.normal, p.texcoord0,
      p.texcoord1]).reduceOption).Nodup := hnd
  obtain ⟨d12, d13, d14, _, _, _⟩ := four_reduceOption_nodup hnd4
  simp only [processPrimInput]
  rw [tangentDropStep_store, normalRegenStep_texcoord1, normalRegenStep_texcoord0]
  rw [fixAttrAt_frame (d14 id hid), fixAttrAt_frame (d13 id hid)]
  rw [normalRegenStep_getAcc _ _ _
    (by rw [fixAttrAt_length, fixAttrAt_length]; exact getAcc_lt_length hacc)]
  rw [fixAttrAt_frame (d12 id hid), hid]
  exact fixAttrAt_effect hacc hf hd

theorem processPrimInput_effect_normal (st : AccessorStore)
    (c : GeometryFixResult) (p : Primitive) (hnd : (attrIds p).Nodup)
    {id : Nat} {acc : Accessor} {arr : List JsNum}
    (hid : p.normal = some id) (hacc : getAcc st id = some acc)
    (hf : acc.ctype = .f32) (hd : acc.data = some arr) :
    getAcc (processPrimInput st c p).1 id =
      some { acc with data := some (arr.map fixVal) } := by
  have hnd4 : (([p.position, p.normal, p.texcoord0,
      p.texcoord1]).reduceOption).Nodup := hnd
  obtain ⟨d12, _, _, d23, d24, _⟩ := four_reduceOption_nodup hnd4
  have hacc1 : getAcc (fixAttrAt st p.position).1 id = some acc := by
    rw [fixAttrAt_frame (fun he => d12 id he hid)]
    exact hacc
  simp only [processPrimInput]
  rw [tangentDropStep_store, normalRegenStep_texcoord1, normalRegenStep_texcoord0]
  rw [fixAttrAt_frame (d24 id hid), fixAttrAt_frame (d23 id hid)]
  rw [normalRegenStep_getAcc _ _ _
    (by rw [fixAttrAt_length, fixAttrAt_length]; exact getAcc_lt_length hacc)]
  rw [hid]
  exact fixAttrAt_effect hacc1 hf hd

theorem processPrimInput_effect_texcoord0 (st : AccessorStore)
    (c : GeometryFixResult) (p : Primitive) (hnd : (attrIds p).Nodup)
    {id : Nat} {acc : Accessor} {arr : List JsNum}
    (hid : p.texcoord0 = some id) (hacc : getAcc st id = some acc)
    (hf : acc.ctype = .f32) (hd : acc.data = some arr) :
    getAcc (processPrimInput st c p).1 id =
      some { acc with data := some (arr.map fixVal) } := by
  have hnd4 : (([p.position, p.normal, p.texcoord0,
      p.texcoord1]).reduceOption).Nodup := hnd
  obtain ⟨_, d13, _, d23, _, d34⟩ := four_reduceOption_nodup hnd4
  have hacc3 : getAcc (normalRegenStep (fixAttrAt (fixAttrAt st p.position).1
      p.normal).1 p { c with
        totalPrimitivesProcessed := c.totalPrimitivesProcessed + 1,
        invalidVerticesFixed :=
          c.invalidVerticesFixed + (fixAttrAt st p.position).2 }).1 id =
      some acc := by
    rw [normalRegenStep_getAcc _ _ _
      (by rw [fixAttrAt_length, fixAttrAt_length]; exact getAcc_lt_length hacc)]
    rw [fixAttrAt_frame (fun he => d23 id he hid),
      fixAttrAt_frame (fun he => d13 id he hid)]
    exact hacc
  simp only [processPrimInput]
  rw [tangentDropStep_store, normalRegenStep_texcoord1, normalRegenStep_texcoord0]
  rw [fixAttrAt_frame (d34 id hid), hid]
  exact fixAttrAt_effect hacc3 hf hd

theorem processPrimInput_effect_texcoord1 (st : AccessorStore)
    (c : GeometryFixResult) (p : Primitive) (hnd : (attrIds p).Nodup)
    {id : Nat} {acc : Accessor} {arr : List JsNum}
    (hid : p.texcoord1 = some id) (hacc : getAcc st id = some acc)
    (hf : acc.ctype = .f32) (hd : acc.data = some arr) :
    getAcc (processPrimInput st c p).1 id =
      some { acc with data := some (arr.map fixVal) } := by
  have hnd4 : (([p.position, p.normal, p.texcoord0,
      p.texcoord1]).reduceOption).Nodup := hnd
  obtain ⟨_, _, d14, _, d24, d34⟩ := four_reduceOption_nodup hnd4
  have hacc4 : getAcc (fixAttrAt (normalRegenStep (fixAttrAt (fixAttrAt st
      p.position).1 p.normal).1 p { c with
        totalPrimitivesProcessed := c.totalPrimitivesProcessed + 1,
        invalidVerticesFixed :=
          c.invalidVerticesFixed + (fixAttrAt st p.position).2 }).1
      p.texcoord0).1 id = some acc := by
    rw [fixAttrAt_frame (fun he => d34 id he hid)]
    rw [normalRegenStep_getAcc _ _ _
      (by rw [fixAttrAt_length, fixAttrAt_length]; exact getAcc_lt_length hacc)]
    rw [fixAttrAt_frame (fun he => d24 id he hid),
      fixAttrAt_frame (fun he => d14 id he hid)]
    exact hacc
  simp only [processPrimInput]
  rw [tangentDropStep_store, normalRegenStep_texcoord1, normalRegenStep_texcoord0]
  rw [hid]
  exact fixAttrAt_effect hacc4 hf hd

theorem processPrims_length {f}
    (hf : ∀ st c p, st.length ≤ (f st c p).1.length) :
    ∀ (ps : List Primitive) (st : AccessorStore) (c : GeometryFixResult),
      st.length ≤ (processPrims f st c ps).1.length := by
  intro ps
  induction ps with
  | nil => intro st c; exact Nat.le_refl _
  | cons p ps ih =>
    intro st c
    simp only [processPrims]
    exact le_trans (hf st c p) (ih _ _)

theorem processPrims_preservesValid {f}
    (hf : ∀ st c p, preservesValid st (f st c p).1) :
    ∀ (ps : List Primitive) (st : AccessorStore) (c : GeometryFixResult),
      preservesValid st (processPrims f st c ps).1 := by
  intro ps
  induction ps with
  | nil => intro st c id acc ha _; exact ha
  | cons p ps ih =>
    intro st c
    simp only [processPrims]
    exact preservesValid_trans (hf st c p) (ih _ _)

theorem processPrims_isSome {f}
    (hf : ∀ st c p id, (getAcc st id).isSome = true →
      (getAcc (f st c p).1 id).isSome = true) :
    ∀ (ps : List Primitive) (st : AccessorStore) (c : GeometryFixResult) (id : Nat),
      (getAcc st id).isSome = true →
      (getAcc (processPrims f st c ps).1 id).isSome = true := by
  intro ps
  induction ps with
  | nil => intro st c id h; exact h
  | cons p ps ih =>
    intro st c id h
    simp only [processPrims]
    exact ih _ _ _ (hf st c p id h)

theorem processPrims_tangentOK {f}
    (hpres : ∀ st c p, preservesValid st (f st c p).1)
    (hsome : ∀ st c p id, (getAcc st id).isSome = true →
      (getAcc (f st c p).1 id).isSome = true)
    (hestab : ∀ st c p, tangentResolves st p →
      tangentOK (f st c p).1 (f st c p).2.1) :
    ∀ (ps : List Primitive) (st : AccessorStore) (c : GeometryFixResult),
      (∀ p ∈ ps, tangentResolves st p) →
      ∀ q ∈ (processPrims f st c ps).2.1,
        tangentOK (processPrims f st c ps).1 q := by
  intro ps
  induction ps with
  | nil => intro st c _ q hq; simp [processPrims] at hq
  | cons p ps ih =>
    intro st c hwf q hq
    simp only [processPrims, List.mem_cons] at hq
    simp only [processPrims]
    rcases hq with rfl | hq
    · exact tangentOK_mono
        (hestab st c p (hwf p (List.mem_cons_self _ _)))
        (processPrims_preservesValid hpres ps _ _)
    · exact ih _ _
        (fun r hr tid htid =>
          hsome _ _ _ _ (hwf r (List.mem_cons_of_mem _ hr) tid htid))
        q hq

theorem processPrims_frame :
    ∀ (ps : List Primitive) (st : AccessorStore) (c : GeometryFixResult)
      {j : Nat}, j < st.length → (∀ p ∈ ps, j ∉ attrIds p) →
      getAcc (processPrims processPrimInput st c ps).1 j = getAcc st j := by
  intro ps
  induction ps with
  | nil => intro st c j _ _; rfl
  | cons p ps ih =>
    intro st c j hj hnot
    simp only [processPrims]
    rw [ih _ _ (lt_of_lt_of_le hj (processPrimInput_length st c p))
      (fun r hr => hnot r (List.mem_cons_of_mem _ hr))]
    exact processPrimInput_frame st c p hj (hnot p (List.mem_cons_self _ _))

theorem primFixCount_congr {st1 st : AccessorStore} {q : Primitive}
    (h : ∀ id ∈ attrIds q, getAcc st1 id = getAcc st id) :
    primFixCount st1 q = primFixCount st q := by
  unfold primFixCount
  rw [fixCount_congr (fun id hid =>
      h id (mem_attrIds.mpr (Or.inl hid))),
    fixCount_congr (fun id hid =>
      h id (mem_attrIds.mpr (Or.inr (Or.inr (Or.inl hid))))),
    fixCount_congr (fun id hid =>
      h id (mem_attrIds.mpr (Or.inr (Or.inr (Or.inr hid)))))]

theorem processPrims_count :
    ∀ (ps : List Primitive) (st : AccessorStore) (c : GeometryFixResult),
      (ps.flatMap attrIds).Nodup →
      (∀ p ∈ ps, ∀ id ∈ attrIds p, id < st.length) →
      (processPrims processPrimInput st c ps).2.2.invalidVerticesFixed =
        c.invalidVerticesFixed + (ps.map (primFixCount st)).sum := by
  intro ps
  induction ps with
  | nil => intro st c _ _; simp [processPrims]
  | cons p ps ih =>
    intro st c hnd hlt
    rw [List.flatMap_cons, List.nodup_append] at hnd
    obtain ⟨hnd1, hnd2, hdisj⟩ := hnd
    simp only [processPrims, List.map_cons, List.sum_cons]
    have hcount := processPrimInput_count st c p hnd1
      (hlt p (List.mem_cons_self _ _))
    have hrest := ih (processPrimInput st c p).1
      (processPrimInput st c p).2.2 hnd2
      (fun r hr id hid => lt_of_lt_of_le
        (hlt r (List.mem_cons_of_mem _ hr) id hid)
        (processPrimInput_length st c p))
    rw [hrest, hcount]
    have hmaps : (ps.map (primFixCount (processPrimInput st c p).1)).sum =
        (ps.map (primFixCount st)).sum := by
      congr 1
      apply List.map_congr_left
      intro r hr
      apply primFixCount_congr
      intro id hid
      exact processPrimInput_frame st c p
        (hlt r (List.mem_cons_of_mem _ hr) id hid)
        (fun hin => hdisj hin (List.mem_flatMap.mpr ⟨r, hr, hid⟩))
    rw [hmaps]
    omega

theorem processPrims_effect :
    ∀ (ps : List Primitive) (st : AccessorStore) (c : GeometryFixResult),
      (ps.flatMap attrIds).Nodup →
      ∀ q ∈ ps, ∀ id : Nat,
        (q.position = some id ∨ q.normal = some id ∨ q.texcoord0 = some id ∨
          q.texcoord1 = some id) →
        ∀ (acc : Accessor) (arr : List JsNum),
          getAcc st id = some acc → acc.ctype = .f32 → acc.data = some arr →
          getAcc (processPrims processPrimInput st c ps).1 id =
            some { acc with data := some (arr.map fixVal) } := by
  intro ps
  induction ps with
  | nil => intro st c _ q hq; simp at hq
  | cons p ps ih =>
    intro st c hnd q hq id hslot acc arr hacc hf hd
    rw [List.flatMap_cons, List.nodup_append] at hnd
    obtain ⟨hnd1, hnd2, hdisj⟩ := hnd
    have hidmem : id ∈ attrIds q := mem_attrIds.mpr hslot
    simp only [List.mem_cons] at hq
    simp only [processPrims]
    rcases hq with rfl | hq
    · have heff : getAcc (processPrimInput st c q).1 id =
          some { acc with data := some (arr.map fixVal) } := by
        rcases hslot with h | h | h | h
        · exact processPrimInput_effect_position st c q hnd1 h hacc hf hd
        · exact processPrimInput_effect_normal st c q hnd1 h hacc hf hd
        · exact processPrimInput_effect_texcoord0 st c q hnd1 h hacc hf hd
        · exact processPrimInput_effect_texcoord1 st c q hnd1 h hacc hf hd
      rw [processPrims_frame ps _ _
        (lt_of_lt_of_le (getAcc_lt_length hacc) (processPrimInput_length st c q))
        (fun r hr hin => hdisj hidmem (List.mem_flatMap.mpr ⟨r, hr, hin⟩))]
      exact heff
    · have hacc1 : getAcc (processPrimInput st c p).1 id = some acc := by
        rw [processPrimInput_frame st c p (getAcc_lt_length hacc)
          (fun hin => hdisj hin
            (List.mem_flatMap.mpr ⟨q, hq, hidmem⟩))]
        exact hacc
      exact ih _ _ hnd2 q hq id hslot acc arr hacc1 hf hd

theorem processMeshes_length {f}
    (hf : ∀ st c p, st.length ≤ (f st c p).1.length) :
    ∀ (ms : List Mesh) (st : AccessorStore) (c : GeometryFixResult),
      st.length ≤ (processMeshes f st c ms).1.length := by
  intro ms
  induction ms with
  | nil => intro st c; exact Nat.le_refl _
  | cons m ms ih =>
    intro st c
    simp only [processMeshes]
    exact le_trans (processPrims_length hf m.primitives st c) (ih _ _)

theorem processMeshes_preservesValid {f}
    (hf : ∀ st c p, preservesValid st (f st c p).1) :
    ∀ (ms : List Mesh) (st : AccessorStore) (c : GeometryFixResult),
      preservesValid st (processMeshes f st c ms).1 := by
  intro ms
  induction ms with
  | nil => intro st c id acc ha _; exact ha
  | cons m ms ih =>
    intro st c
    simp only [processMeshes]
    exact preservesValid_trans (processPrims_preservesValid hf m.primitives st c)
      (ih _ _)

theorem processMeshes_isSome {f}
    (hf : ∀ st c p id, (getAcc st id).isSome = true →
      (getAcc (f st c p).1 id).isSome = true) :
    ∀ (ms : List Mesh) (st : AccessorStore) (c : GeometryFixResult) (id : Nat),
      (getAcc st id).isSome = true →
      (getAcc (processMeshes f st c ms).1 id).isSome = true := by
  intro ms
  induction ms with
  | nil => intro st c id h; exact h
  | cons m ms ih =>
    intro st c id h
    simp only [processMeshes]
    exact ih _ _ _ (processPrims_isSome hf m.primitives st c id h)

theorem processMeshes_tangentOK {f}
    (hpres : ∀ st c p, preservesValid st (f st c p).1)
    (hsome : ∀ st c p id, (getAcc st id).isSome = true →
      (getAcc (f st c p).1 id).isSome = true)
    (hestab : ∀ st c p, tangentResolves st p →
      tangentOK (f st c p).1 (f st c p).2.1) :
    ∀ (ms : List Mesh) (st : AccessorStore) (c : GeometryFixResult),
      (∀ m ∈ ms, ∀ p ∈ m.primitives, tangentResolves st p) →
      ∀ m' ∈ (processMeshes f st c ms).2.1, ∀ q ∈ m'.primitives,
        tangentOK (processMeshes f st c ms).1 q := by
  intro ms
  induction ms with
  | nil => intro st c _ m' hm'; simp [processMeshes] at hm'
  | cons m ms ih =>
    intro st c hwf m' hm' q hq
    simp only [processMeshes, List.mem_cons] at hm'
    simp only [processMeshes]
    rcases hm' with rfl | hm'
    · simp only at hq
      exact tangentOK_mono
        (processPrims_tangentOK hpres hsome hestab m.primitives st c
          (hwf m (List.mem_cons_self _ _)) q hq)
        (processMeshes_preservesValid hpres ms _ _)
    · exact ih _ _
        (fun m2 hm2 r hr tid htid =>
          processPrims_isSome hsome m.primitives st c tid
            (hwf m2 (List.mem_cons_of_mem _ hm2) r hr tid htid))
        m' hm' q hq

theorem processMeshes_frame :
    ∀ (ms : List Mesh) (st : AccessorStore) (c : GeometryFixResult)
      {j : Nat}, j < st.length →
      (∀ m ∈ ms, ∀ p ∈ m.primitives, j ∉ attrIds p) →
      getAcc (processMeshes processPrimInput st c ms).1 j = getAcc st j := by
  intro ms
  induction ms with
  | nil => intro st c j _ _; rfl
  | cons m ms ih =>
    intro st c j hj hnot
    simp only [processMeshes]
    rw [ih _ _
      (lt_of_lt_of_le hj (processPrims_length (fun st c p =>
        processPrimInput_length st c p) m.primitives st c))
      (fun m2 hm2 => hnot m2 (List.mem_cons_of_mem _ hm2))]
    exact processPrims_frame m.primitives st c hj
      (hnot m (List.mem_cons_self _ _))

theorem processMeshes_count :
    ∀ (ms : List Mesh) (st : AccessorStore) (c : GeometryFixResult),
      (((ms.flatMap Mesh.primitives).flatMap attrIds)).Nodup →
      (∀ p ∈ ms.flatMap Mesh.primitives, ∀ id ∈ attrIds p, id < st.length) →
      (processMeshes processPrimInput st c ms).2.2.invalidVerticesFixed =
        c.invalidVerticesFixed +
          ((ms.flatMap Mesh.primitives).map (primFixCount st)).sum := by
  intro ms
  induction ms with
  | nil => intro st c _ _; simp [processMeshes]
  | cons m ms ih =>
    intro st c hnd hlt
    rw [List.flatMap_cons, List.flatMap_append, List.nodup_append] at hnd
    obtain ⟨hnd1, hnd2, hdisj⟩ := hnd
    simp only [processMeshes, List.flatMap_cons, List.map_append, List.sum_append]
    have hcount := processPrims_count m.primitives st c hnd1
      (fun p hp => hlt p (List.mem_flatMap.mpr ⟨m, List.mem_cons_self _ _, hp⟩))
    have hrest := ih (processPrims processPrimInput st c m.primitives).1
      (processPrims processPrimInput st c m.primitives).2.2 hnd2
      (fun p hp id hid => lt_of_lt_of_le
        (hlt p (by simp only [List.flatMap_cons, List.mem_append]; exact Or.inr hp) id hid)
        (processPrims_length (fun st c p => processPrimInput_length st c p)
          m.primitives st c))
    rw [hrest, hcount]
    have hmaps : ((ms.flatMap Mesh.primitives).map
        (primFixCount (processPrims processPrimInput st c m.primitives).1)).sum =
        ((ms.flatMap Mesh.primitives).map (primFixCount st)).sum := by
      congr 1
      apply List.map_congr_left
      intro r hr
      apply primFixCount_congr
      intro id hid
      exact processPrims_frame m.primitives st c
        (hlt r (by simp only [List.flatMap_cons, List.mem_append]; exact Or.inr hr) id hid)
        (fun p hp hin => hdisj (List.mem_flatMap.mpr ⟨p, hp, hin⟩)
          (List.mem_flatMap.mpr ⟨r, hr, hid⟩))
    rw [hmaps]
    omega

theorem processMeshes_effect :
    ∀ (ms : List Mesh) (st : AccessorStore) (c : GeometryFixResult),
      (((ms.flatMap Mesh.primitives).flatMap attrIds)).Nodup →
      ∀ q ∈ ms.flatMap Mesh.primitives, ∀ id : Nat,
        (q.position = some id ∨ q.normal = some id ∨ q.texcoord0 = some id ∨
          q.texcoord1 = some id) →
        ∀ (acc : Accessor) (arr : List JsNum),
          getAcc st id = some acc → acc.ctype = .f32 → acc.data = some arr →
          getAcc (processMeshes processPrimInput st c ms).1 id =
            some { acc with data := some (arr.map fixVal) } := by
  intro ms
  induction ms with
  | nil => intro st c _ q hq; simp at hq
  | cons m ms ih =>
    intro st c hnd q hq id hslot acc arr hacc hf hd
    rw [List.flatMap_cons, List.flatMap_append, List.nodup_append] at hnd
    obtain ⟨hnd1, hnd2, hdisj⟩ := hnd
    have hidmem : id ∈ attrIds q := mem_attrIds.mpr hslot
    simp only [List.flatMap_cons, List.mem_append] at hq
    simp only [processMeshes]
    rcases hq with hq | hq
    · have heff := processPrims_effect m.primitives st c hnd1 q hq id hslot
        acc arr hacc hf hd
      rw [processMeshes_frame ms _ _
        (lt_of_lt_of_le (getAcc_lt_length hacc)
          (processPrims_length (fun st c p => processPrimInput_length st c p)
            m.primitives st c))
        (fun m2 hm2 r hr hin =>
          hdisj (List.mem_flatMap.mpr ⟨q, hq, hidmem⟩)
            (List.mem_flatMap.mpr ⟨r, List.mem_flatMap.mpr ⟨m2, hm2, hr⟩, hin⟩))]
      exact heff
    · have hacc1 : getAcc (processPrims processPrimInput st c m.primitives).1 id =
          some acc := by
        rw [processPrims_frame m.primitives st c (getAcc_lt_length hacc)
          (fun r hr hin => hdisj (List.mem_flatMap.mpr ⟨r, hr, hin⟩)
            (List.mem_flatMap.mpr ⟨q, hq, hidmem⟩))]
        exact hacc
      exact ih _ _ hnd2 q hq id hslot acc arr hacc1 hf hd

theorem getAcc_set_any_ne {st : AccessorStore} {i id : Nat}
    {v : Option Accessor} (h : i ≠ id) :
    getAcc (st.set i v) id = getAcc st id := by
  rw [getAcc_eq_getElem, getAcc_eq_getElem, List.getElem?_set_ne h]

theorem disposeStep_keep {ms : List Mesh} {s : AccessorStore × Nat}
    {id : Nat} {acc : Accessor} {i : Nat}
    (h : getAcc s.1 id = some acc) (hne : (acc.data.getD []).length ≠ 0) :
    getAcc (disposeStep ms s i).1 id = some acc := by
  rcases hg : getAcc s.1 i with _ | a
  · simp only [disposeStep, hg]
    exact h
  · by_cases hemp : (a.data.getD []).length = 0
    · by_cases hpar : parentCount ms i ≤ 1
      · have hi : i ≠ id := by
          intro he
          subst he
          rw [h] at hg
          cases hg
          exact hne hemp
        simp only [disposeStep, hg, if_pos hemp, if_pos hpar]
        rw [getAcc_set_any_ne hi]
        exact h
      · simp only [disposeStep, hg, if_pos hemp, if_neg hpar]
        exact h
    · simp only [disposeStep, hg, if_neg hemp]
      exact h

theorem disposeFold_keep {ms : List Mesh} :
    ∀ (l : List Nat) (s : AccessorStore × Nat) {id : Nat} {acc : Accessor},
      getAcc s.1 id = some acc → (acc.data.getD []).length ≠ 0 →
      getAcc (l.foldl (disposeStep ms) s).1 id = some acc := by
  intro l
  induction l with
  | nil => intro s id acc h _; exact h
  | cons i l ih =>
    intro s id acc h hne
    simp only [List.foldl_cons]
    exact ih _ (disposeStep_keep h hne) hne

theorem disposePass_keep {st : AccessorStore} {ms : List Mesh} {id : Nat}
    {acc : Accessor} (h : getAcc st id = some acc)
    (hne : (acc.data.getD []).length ≠ 0) :
    getAcc (disposePass st ms).1 id = some acc :=
  disposeFold_keep _ _ h hne

theorem tangentOK_dispose {st : AccessorStore} {ms : List Mesh} {p : Primitive}
    (h : tangentOK st p) : tangentOK (disposePass st ms).1 p := by
  intro tid htid
  rcases h tid htid with ⟨acc, hg, hv⟩
  rcases isTangentValid_data hv with ⟨arr, hd, hne, _⟩
  refine ⟨acc, disposePass_keep hg ?_, hv⟩
  rw [hd]
  simpa using hne

theorem repairInput_tangentOK (doc : Document)
    (hres : ∀ p ∈ doc.allPrims, tangentResolves doc.accessors p) :
    ∀ p ∈ (repairInput doc).1.allPrims,
      tangentOK (repairInput doc).1.accessors p := by
  intro p hp
  simp only [repairInput, Document.allPrims] at hp ⊢
  rcases List.mem_flatMap.mp hp with ⟨m', hm', hpm⟩
  exact tangentOK_dispose
    (processMeshes_tangentOK
      (fun st c p => processPrimInput_preservesValid st c p)
      (fun st c p id h => processPrimInput_isSome st c p h)
      (fun st c p h => processPrimInput_tangentOK st c p h)
      doc.meshes doc.accessors emptyFixResult
      (fun m hm q hq => hres q
        (List.mem_flatMap.mpr ⟨m, hm, hq⟩))
      m' hm' p hpm)

theorem repairOutput_tangentOK (doc : Document)
    (hres : ∀ p ∈ doc.allPrims, tangentResolves doc.accessors p) :
    ∀ p ∈ (repairOutput doc).1.allPrims,
      tangentOK (repairOutput doc).1.accessors p := by
  intro p hp
  simp only [repairOutput, Document.allPrims] at hp ⊢
  rcases List.mem_flatMap.mp hp with ⟨m', hm', hpm⟩
  exact tangentOK_dispose
    (processMeshes_tangentOK
      (fun st c p => processPrimOutput_preservesValid st c p)
      (fun st c p id h => processPrimOutput_isSome st c p h)
      (fun st c p h => processPrimOutput_tangentOK st c p h)
      doc.meshes doc.accessors emptyFixResult
      (fun m hm q hq => hres q
        (List.mem_flatMap.mpr ⟨m, hm, hq⟩))
      m' hm' p hpm)

theorem repairInput_count (doc : Document)
    (hnd : ((doc.allPrims).flatMap attrIds).Nodup)
    (hlt : ∀ p ∈ doc.allPrims, ∀ id ∈ attrIds p, id < doc.accessors.length) :
    (repairInput doc).2.invalidVerticesFixed =
      ((doc.allPrims).map (primFixCount doc.accessors)).sum := by
  simp only [repairInput]
  have h := processMeshes_count doc.meshes doc.accessors emptyFixResult hnd hlt
  simpa [emptyFixResult] using h

theorem repairInput_effect (doc : Document)
    (hnd : ((doc.allPrims).flatMap attrIds).Nodup) :
    ∀ q ∈ doc.allPrims, ∀ id : Nat,
      (q.position = some id ∨ q.normal = some id ∨ q.texcoord0 = some id ∨
        q.texcoord1 = some id) →
      ∀ (acc : Accessor) (arr : List JsNum),
        getAcc doc.accessors id = some acc → acc.ctype = .f32 →
        acc.data = some arr → arr ≠ [] →
        getAcc (repairInput doc).1.accessors id =
          some { acc with data := some (arr.map fixVal) } := by
  intro q hq id hslot acc arr hacc hf hd hne
  simp only [repairInput]
  have heff := processMeshes_effect doc.meshes doc.accessors emptyFixResult hnd
    q hq id hslot acc arr hacc hf hd
  refine disposePass_keep heff ?_
  simp only [Option.getD_some, List.length_map]
  intro he
  exact hne (List.length_eq_zero.mp he)

end GeometryFixer

/-- C3 (counterexample).  On a document whose single primitive has a NORMAL
accessor holding one `NaN` component, `repairInput` replaces the component
with `0` (the accessor array afterwards is `[0, 0, 1]`) yet reports
`invalidVerticesFixed = 0`: the claimed equality between
`invalidVerticesFixed` and the replacements across all four attribute
classes fails, because the source discards the count `fixNonFinite`
returns for NORMAL. -/
theorem C3_normal_count_counterexample :
    (GeometryFixer.repairInput cdocC3).2.invalidVerticesFixed = 0 ∧
    (GeometryFixer.repairInput cdocC3).1.accessors =
      [some { type := .vec3, ctype := .f32, data := some [.fin 0, .fin 0, .fin 1] }] ∧
    cdocC3.accessors =
      [some { type := .vec3, ctype := .f32, data := some [.nan, .fin 0, .fin 1] }] := by
  refine ⟨by decide, by decide, by decide⟩

/-- C3 (amended).  On any document whose fixable attribute slots
(`POSITION`, `NORMAL`, `TEXCOORD_0`, `TEXCOORD_1`, across all primitives)
reference pairwise distinct, in-range accessors, `repairInput` replaces
every non-finite component of those accessors with `0` (second conjunct:
each such `f32` accessor's array afterwards is its old array with
non-finite entries zeroed), but `invalidVerticesFixed` equals the number of
replacements in `POSITION`, `TEXCOORD_0` and `TEXCOORD_1` only — the
replacements performed in `NORMAL` accessors are not counted. -/
theorem C3_repairInput_fix_amended (doc : Document)
    (hnd : ((doc.allPrims).flatMap GeometryFixer.attrIds).Nodup)
    (hlt : ∀ p ∈ doc.allPrims, ∀ id ∈ GeometryFixer.attrIds p,
      id < doc.accessors.length) :
    (GeometryFixer.repairInput doc).2.invalidVerticesFixed =
      ((doc.allPrims).map (GeometryFixer.primFixCount doc.accessors)).sum ∧
    (∀ q ∈ doc.allPrims, ∀ id : Nat,
      (q.position = some id ∨ q.normal = some id ∨ q.texcoord0 = some id ∨
        q.texcoord1 = some id) →
      ∀ (acc : Accessor) (arr : List JsNum),
        getAcc doc.accessors id = some acc → acc.ctype = .f32 →
        acc.data = some arr → arr ≠ [] →
        getAcc (GeometryFixer.repairInput doc).1.accessors id =
          some { acc with data := some (arr.map GeometryFixer.fixVal) }) :=
  ⟨GeometryFixer.repairInput_count doc hnd hlt,
    GeometryFixer.repairInput_effect doc hnd⟩

/-- C3 (witness).  The amended theorem applied to a concrete document with
one `NaN` in POSITION and one in TEXCOORD_0: both hypotheses hold by
computation, and the counted total is `2`. -/
theorem C3_repairInput_fix_amended_witness :
    (GeometryFixer.repairInput cdocC3w).2.invalidVerticesFixed =
      ((cdocC3w.allPrims).map (GeometryFixer.primFixCount cdocC3w.accessors)).sum ∧
    (∀ q ∈ cdocC3w.allPrims, ∀ id : Nat,
      (q.position = some id ∨ q.normal = some id ∨ q.texcoord0 = some id ∨
        q.texcoord1 = some id) →
      ∀ (acc : Accessor) (arr : List JsNum),
        getAcc cdocC3w.accessors id = some acc → acc.ctype = .f32 →
        acc.data = some arr → arr ≠ [] →
        getAcc (GeometryFixer.repairInput cdocC3w).1.accessors id =
          some { acc with data := some (arr.map GeometryFixer.fixVal) }) :=
  C3_repairInput_fix_amended cdocC3w (by decide) (by decide)

/-- C8.  After `repairInput` (first conjunct) and after `repairOutput`
(second conjunct), every primitive either carries no TANGENT attribute or
its TANGENT accessor exists and satisfies `isTangentValid` — VEC4 type,
non-empty all-finite array, every sampled `w` within `0.1` of `±1`; a
tangent accessor failing the check has been dropped from the primitive.
The hypothesis asks that tangent references of the input document resolve
(the source holds object references, which cannot dangle). -/
theorem C8_repair_tangent_validity (doc : Document)
    (hres : ∀ p ∈ doc.allPrims, GeometryFixer.tangentResolves doc.accessors p) :
    (∀ p ∈ (GeometryFixer.repairInput doc).1.allPrims, ∀ tid,
      p.tangent = some tid →
      ∃ acc, getAcc (GeometryFixer.repairInput doc).1.accessors tid = some acc ∧
        GeometryFixer.isTangentValid acc = true) ∧
    (∀ p ∈ (GeometryFixer.repairOutput doc).1.allPrims, ∀ tid,
      p.tangent = some tid →
      ∃ acc, getAcc (GeometryFixer.repairOutput doc).1.accessors tid = some acc ∧
        GeometryFixer.isTangentValid acc = true) :=
  ⟨GeometryFixer.repairInput_tangentOK doc hres,
    GeometryFixer.repairOutput_tangentOK doc hres⟩

/-- C8 (witness).  The theorem applied to a concrete document with one
valid tangent; the hypothesis is discharged by computation. -/
theorem C8_repair_tangent_validity_witness :
    (∀ p ∈ (GeometryFixer.repairInput cdocC8).1.allPrims, ∀ tid,
      p.tangent = some tid →
      ∃ acc, getAcc (GeometryFixer.repairInput cdocC8).1.accessors tid = some acc ∧
        GeometryFixer.isTangentValid acc = true) ∧
    (∀ p ∈ (GeometryFixer.repairOutput cdocC8).1.allPrims, ∀ tid,
      p.tangent = some tid →
      ∃ acc, getAcc (GeometryFixer.repairOutput cdocC8).1.accessors tid = some acc ∧
        GeometryFixer.isTangentValid acc = true) :=
  C8_repair_tangent_validity cdocC8 (by
    intro p hp tid htid
    simp only [Document.allPrims, cdocC8] at hp
    simp only [List.flatMap_cons, List.flatMap_nil, List.append_nil,
      List.mem_cons, List.not_mem_nil, or_false] at hp
    subst hp
    simp only at htid
    cases htid
    decide)

/-- C9.  `validateGlbBuffer` reports a buffer valid exactly when: its length
is at least 12 and at most 104857600 bytes, bytes 0-3 as u32 LE are the glTF
magic `0x46546C67`, bytes 4-7 are `2`, bytes 8-11 equal the buffer length,
and a supplied filename carries the `.glb` extension; and the errors list
reports one entry per violated condition (the early return on a too-short
buffer reports the size violations alone, since the header fields cannot be
read). -/
theorem C9_validateGlbBuffer_valid_iff (buf : List Nat) (filename : Option (List Char)) :
    ((FileValidator.validateGlbBuffer buf filename).isValid = true ↔
      (12 ≤ buf.length ∧ buf.length ≤ 104857600 ∧
        FileValidator.readUInt32LE buf 0 = 0x46546C67 ∧
        FileValidator.readUInt32LE buf 4 = 2 ∧
        FileValidator.readUInt32LE buf 8 = buf.length ∧
        FileValidator.extensionOk filename = true)) ∧
    (FileValidator.validateGlbBuffer buf filename).errors.length =
      (if 104857600 < buf.length then 1 else 0) +
      (if buf.length < 12 then 1 else
        (if FileValidator.readUInt32LE buf 0 = 0x46546C67 then 0 else 1) +
        (if FileValidator.readUInt32LE buf 4 = 2 then 0 else 1) +
        (if FileValidator.readUInt32LE buf 8 = buf.length then 0 else 1) +
        (if FileValidator.extensionOk filename then 0 else 1)) := by
  unfold FileValidator.validateGlbBuffer
  simp only [FileValidator.maxSize, FileValidator.GLB_HEADER_SIZE,
    FileValidator.GLB_MAGIC, FileValidator.GLB_VERSION]
  split_ifs <;> simp_all [List.isEmpty_iff, List.length_append]

namespace DracoCompressor

theorem compressDraco_ok_size
    (t : DracoParams → Document → Except String Document) (doc : Document)
    (o : DracoOptions) (s : DracoStats) (d2 : Document)
    (h : compressDraco t doc o = .ok (s, d2)) :
    s.compressedSize =
      if calculateGeometrySize doc = 0 ∨ countMeshesWithPrimitives doc = 0 then 0
      else jsRound (JsNum.rMul (mkRat (calculateGeometrySize doc) 1) estimatedRatio) := by
  simp only [compressDraco] at h
  split at h
  · exact absurd h (by simp)
  · split at h
    · simp only [Except.ok.injEq, Prod.mk.injEq] at h
      rename_i hb
      simp only [Bool.or_eq_true, decide_eq_true_iff] at hb
      rw [← h.1, if_pos hb]
    · split at h
      · exact absurd h (by simp)
      · simp only [Except.ok.injEq, Prod.mk.injEq] at h
        rename_i hb xe de heq
        simp only [Bool.or_eq_true, decide_eq_true_iff] at hb
        rw [← h.1, if_neg hb]

/-- C1: for a document with non-zero geometry and two compression levels
`l1 < l2` in `[0, 10]` (all other options identical), whenever both runs of
`compressDraco` succeed the reported `compressedSize` at the higher level is
at most the one at the lower level (the source's size estimate
`round(originalSize · 0.15)` does not depend on the level, so the two are
equal). -/
theorem C1_draco_compressedSize_monotone
    (t : DracoParams → Document → Except String Document) (doc : Document)
    (o : DracoOptions) (l1 l2 : ℚ) (s1 s2 : DracoStats) (d1 d2 : Document)
    (h0 : 0 ≤ l1) (hlt : l1 < l2) (h10 : l2 ≤ 10)
    (hgeom : calculateGeometrySize doc ≠ 0)
    (h1 : compressDraco t doc { o with compressionLevel := some l1 } = .ok (s1, d1))
    (h2 : compressDraco t doc { o with compressionLevel := some l2 } = .ok (s2, d2)) :
    s2.compressedSize ≤ s1.compressedSize := by
  rw [compressDraco_ok_size t doc _ s1 d1 h1, compressDraco_ok_size t doc _ s2 d2 h2]

/-- `C1_draco_compressedSize_monotone` applied at levels 3 and 7 on
`cdocC1` (12 bytes of geometry, estimated compressed size 2 at either
level). -/
theorem C1_draco_compressedSize_monotone_witness :
    (0 : ℚ) ≤ 3 ∧ (3 : ℚ) < 7 ∧ (7 : ℚ) ≤ 10 ∧
      calculateGeometrySize cdocC1 ≠ 0 ∧
      compressDraco idDracoTransform cdocC1 { compressionLevel := some 3 } =
        .ok (statsC1, cdocC1) ∧
      statsC1.compressedSize ≤ statsC1.compressedSize :=
  ⟨by norm_num, by norm_num, by norm_num, by decide, by rfl,
    C1_draco_compressedSize_monotone idDracoTransform cdocC1 {} 3 7 statsC1
      statsC1 cdocC1 cdocC1 (by norm_num) (by norm_num) (by norm_num)
      (by decide) (by rfl) (by rfl)⟩

end DracoCompressor

namespace TextureCompressor

theorem dedupFold_nodup (l : List Nat) : ∀ acc : List Nat, acc.Nodup →
    (l.foldl (fun acc t => if t ∈ acc then acc else acc ++ [t]) acc).Nodup := by
  induction l with
  | nil => intro acc h; exact h
  | cons x xs ih =>
    intro acc h
    simp only [List.foldl_cons]
    split
    · exact ih acc h
    · rename_i hx
      exact ih _ (by simp [List.nodup_append, h, hx])

theorem getTexturesToProcess_nodup (doc : Document) (slots : Option (List String)) :
    (getTexturesToProcess doc slots).Nodup := by
  unfold getTexturesToProcess
  split
  · exact List.nodup_range _
  · split
    · exact List.nodup_range _
    · exact dedupFold_nodup _ [] List.nodup_nil

theorem processTexture_spec
    (tok : List Nat → String → TextureMode → ℚ → Except String (List Nat))
    (sharp : List Nat → ℚ → Except String (List Nat))
    (useToktx : Bool) (mode : TextureMode) (quality : ℚ)
    (doc : Document) (id : Nat) (t : Texture) (img : List Nat)
    (ht : doc.textures[id]? = some t) (hi : t.image = some img) :
    (∃ detail, (processTexture tok sharp useToktx mode quality doc id).2.1 =
        some detail ∧ detail.originalSize = img.length) ∧
    (∀ j, j ≠ id →
      (processTexture tok sharp useToktx mode quality doc id).1.textures[j]? =
        doc.textures[j]?) := by
  simp only [processTexture, ht, hi]
  split
  · exact ⟨⟨_, rfl, rfl⟩, fun j hj => List.getElem?_set_ne (fun he => hj he.symm)⟩
  · exact ⟨⟨_, rfl, rfl⟩, fun j hj => rfl⟩

theorem processTextures_spec
    (tok : List Nat → String → TextureMode → ℚ → Except String (List Nat))
    (sharp : List Nat → ℚ → Except String (List Nat))
    (useToktx : Bool) (mode : TextureMode) (quality : ℚ) :
    ∀ (ids : List Nat) (doc : Document), ids.Nodup →
      (∀ id ∈ ids, ∃ t, doc.textures[id]? = some t ∧
        ∃ img, t.image = some img ∧ img ≠ []) →
      (processTextures tok sharp useToktx mode quality doc ids).2.1.length =
        ids.length ∧
      ∀ d ∈ (processTextures tok sharp useToktx mode quality doc ids).2.1,
        0 < d.originalSize := by
  intro ids
  induction ids with
  | nil => intro doc _ _; exact ⟨rfl, by simp [processTextures]⟩
  | cons id ids ih =>
    intro doc hnd hgood
    obtain ⟨t, ht, img, hi, hne⟩ := hgood id (List.mem_cons_self id ids)
    obtain ⟨⟨detail, hdet, hdsize⟩, hframe⟩ :=
      processTexture_spec tok sharp useToktx mode quality doc id t img ht hi
    have hnd' : ids.Nodup := (List.nodup_cons.mp hnd).2
    have hnm : id ∉ ids := (List.nodup_cons.mp hnd).1
    have hgood' : ∀ i ∈ ids,
        ∃ t, (processTexture tok sharp useToktx mode quality doc id).1.textures[i]? =
          some t ∧ ∃ img, t.image = some img ∧ img ≠ [] := by
      intro i hiM
      have hni : i ≠ id := fun he => hnm (he ▸ hiM)
      rw [hframe i hni]
      exact hgood i (List.mem_cons_of_mem id hiM)
    obtain ⟨ihl, ihp⟩ := ih _ hnd' hgood'
    simp only [processTextures, hdet]
    constructor
    · simp [ihl]
    · intro d hd
      simp only [List.mem_cons] at hd
      rcases hd with hd | hd
      · rw [hd, hdsize]
        exact List.length_pos.mpr hne
      · exact ihp d hd

/-- The C2 counterexample: `cdocC2`'s single texture has a `null` image, so
the loop counts it in `texturesProcessed` yet skips its `details` entry:
the run succeeds with `texturesProcessed = 1` and `details.length = 0`. -/
theorem C2_details_counterexample :
    (compressTextures toktxStub sharpStub true cdocC2 {}).map
        (fun r => (r.1.texturesProcessed, r.1.details.length)) = .ok (1, 0) := by
  rfl

/-- C2 (amended): with valid texture options, an empty selection returns
zero stats without error; and on any successful run in which every selected
texture id resolves to a texture with a non-empty image, the `details` list
has exactly `texturesProcessed` entries, each with `originalSize > 0`.  (The
unamended claim fails when a selected texture has a `null` image: it is
counted but produces no detail entry — see the counterexample.) -/
theorem C2_texture_stats_amended
    (tok : List Nat → String → TextureMode → ℚ → Except String (List Nat))
    (sharp : List Nat → ℚ → Except String (List Nat))
    (useToktx : Bool) (doc : Document) (o : TextureOptions)
    (hv : validateOptions o = .ok ()) :
    (getTexturesToProcess doc o.slots = [] →
      compressTextures tok sharp useToktx doc o =
        .ok ({ texturesProcessed := 0, originalSize := 0, compressedSize := 0,
               compressionRatio := 1, details := [], method := none }, doc)) ∧
    ∀ stats d2, compressTextures tok sharp useToktx doc o = .ok (stats, d2) →
      (∀ id ∈ getTexturesToProcess doc o.slots,
        ∃ t, doc.textures[id]? = some t ∧
          ∃ img, t.image = some img ∧ img ≠ []) →
      stats.details.length = stats.texturesProcessed ∧
      ∀ d ∈ stats.details, 0 < d.originalSize := by
  constructor
  · intro hempty
    simp only [compressTextures, hv, hempty]
    simp
  · intro stats d2 hok hgood
    simp only [compressTextures, hv] at hok
    split at hok
    · simp only [Except.ok.injEq, Prod.mk.injEq] at hok
      rw [← hok.1]
      exact ⟨rfl, by simp⟩
    · simp only [Except.ok.injEq, Prod.mk.injEq] at hok
      rw [← hok.1]
      have hnd := getTexturesToProcess_nodup doc o.slots
      refine ⟨(processTextures_spec tok sharp useToktx _ _ _ doc hnd hgood).1, ?_⟩
      exact (processTextures_spec tok sharp useToktx _ _ _ doc hnd hgood).2

/-- `C2_texture_stats_amended` applied to the empty document with default
options: validation passes and the run returns zero stats. -/
theorem C2_texture_stats_amended_witness :
    validateOptions ({} : TextureOptions) = .ok () ∧
    compressTextures toktxStub sharpStub true ({} : Document) {} =
      .ok ({ texturesProcessed := 0, originalSize := 0, compressedSize := 0,
             compressionRatio := 1, details := [], method := none }, {}) :=
  ⟨rfl, (C2_texture_stats_amended toktxStub sharpStub true {} {} rfl).1 rfl⟩

end TextureCompressor

namespace JsNum

theorem rLt_true_iff (a b : ℚ) : rLt a b = true ↔ a < b := Iff.rfl

theorem rLt_false_iff (a b : ℚ) : rLt a b = false ↔ b ≤ a := Iff.rfl

end JsNum

namespace MeshSimplifier

theorem ratioBad_iff (o : SimplifyOptions) :
    ratioBad o = true ↔ ∃ r, o.targetRatio = some r ∧ (r ≤ 0 ∨ 1 < r) := by
  unfold ratioBad
  rcases h : o.targetRatio with _ | r <;>
    simp [h, SIMPLIFY_RATIO_MAX, Bool.or_eq_true, Bool.not_eq_true',
      JsNum.rLt_true_iff, JsNum.rLt_false_iff]

theorem countBad_iff (o : SimplifyOptions) :
    countBad o = true ↔ ∃ c, o.targetCount = some c ∧ (c ≤ 0 ∨ c.den ≠ 1) := by
  unfold countBad
  rcases h : o.targetCount with _ | c <;>
    simp [h, DracoCompressor.isIntQ, Bool.or_eq_true, Bool.not_eq_true',
      JsNum.rLt_true_iff, JsNum.rLt_false_iff, decide_eq_false_iff_not]

theorem errorBad_iff (o : SimplifyOptions) :
    errorBad o = true ↔ ∃ e, o.error = some e ∧ (e < 0 ∨ 1 < e) := by
  unfold errorBad
  rcases h : o.error with _ | e <;>
    simp [h, Bool.or_eq_true, JsNum.rLt_true_iff]

theorem validateOptions_invalid_iff (doc : Document) (o : SimplifyOptions) :
    (∃ f, validateOptions doc o = some (.invalidOptions f doc)) ↔
      ((o.targetRatio.isSome ∧ o.targetCount.isSome) ∨
       (∃ r, o.targetRatio = some r ∧ (r ≤ 0 ∨ 1 < r)) ∨
       (∃ c, o.targetCount = some c ∧ (c ≤ 0 ∨ c.den ≠ 1)) ∨
       (∃ e, o.error = some e ∧ (e < 0 ∨ 1 < e))) := by
  unfold validateOptions
  split_ifs with h1 h2 h3 h4 <;>
    simp_all [ratioBad_iff, countBad_iff, errorBad_iff, Bool.and_eq_true,
      Option.isSome_iff_exists]

theorem validateOptions_shape (doc : Document) (o : SimplifyOptions) :
    ∀ e, validateOptions doc o = some e → ∃ f, e = .invalidOptions f doc := by
  intro e h
  unfold validateOptions at h
  split_ifs at h <;> simp_all <;> exact ⟨_, h.symm⟩

/-- C5: `simplifyMesh` fails with `InvalidOptions` — the error carrying the
untouched input document, since validation precedes every transform —
exactly when both targets are supplied, or `targetRatio ∉ (0, 1]`, or
`targetCount` is non-positive or non-integral, or `error ∉ [0, 1]`. -/
theorem C5_simplify_invalidOptions_iff
    (weldFn : Document → Except String Document)
    (simplifyFn : SimplifyParams → Document → Except String Document)
    (doc : Document) (o : SimplifyOptions) :
    (∃ f, simplifyMesh weldFn simplifyFn doc o = .error (.invalidOptions f doc)) ↔
      ((o.targetRatio.isSome ∧ o.targetCount.isSome) ∨
       (∃ r, o.targetRatio = some r ∧ (r ≤ 0 ∨ 1 < r)) ∨
       (∃ c, o.targetCount = some c ∧ (c ≤ 0 ∨ c.den ≠ 1)) ∨
       (∃ e, o.error = some e ∧ (e < 0 ∨ 1 < e))) := by
  rw [← validateOptions_invalid_iff doc o]
  constructor
  · rintro ⟨f, hf⟩
    rcases hv : validateOptions doc o with _ | e
    · exfalso
      simp only [simplifyMesh, hv] at hf
      split at hf
      · exact absurd hf (by simp)
      · split at hf
        · exact absurd hf (by simp)
        · split at hf
          · exact absurd hf (by simp)
          · exact absurd hf (by simp)
    · obtain ⟨g, hg⟩ := validateOptions_shape doc o e hv
      simp only [simplifyMesh, hv] at hf
      exact ⟨g, congrArg some hg⟩
  · rintro ⟨f, hf⟩
    exact ⟨f, by simp only [simplifyMesh, hf]⟩

end MeshSimplifier

namespace MeshMerger

theorem joinModel_allPrims (doc : Document) :
    (joinModel doc).allPrims =
      ((doc.allPrims.filter fun p => p.material.isSome).map primKey).dedup.filterMap
        (fun k => (doc.allPrims.filter fun p => p.material.isSome).find?
          fun p => decide (primKey p = k)) ++
      doc.allPrims.filter fun p => p.material.isNone := by
  simp [joinModel, Document.allPrims]

/-- C7: the set of materials referenced by some primitive is the same
before and after `merge` — a material id is referenced after the step if
and only if it was referenced before. -/
theorem C7_merge_material_preserved (doc : Document) (m : Nat) :
    (∃ p ∈ (merge doc).2.allPrims, p.material = some m) ↔
      ∃ p ∈ doc.allPrims, p.material = some m := by
  simp only [merge]
  split
  · exact Iff.rfl
  · rw [joinModel_allPrims]
    constructor
    · rintro ⟨p, hp, hm⟩
      rcases List.mem_append.mp hp with hp | hp
      · obtain ⟨k, hk, hfind⟩ := List.mem_filterMap.mp hp
        exact ⟨p, (List.mem_filter.mp (List.mem_of_find?_eq_some hfind)).1, hm⟩
      · have h2 := (List.mem_filter.mp hp).2
        rw [hm] at h2
        simp at h2
    · rintro ⟨p, hp, hm⟩
      have hps : p ∈ doc.allPrims.filter (fun p => p.material.isSome) :=
        List.mem_filter.mpr ⟨hp, by simp [hm]⟩
      have hk : primKey p ∈
          ((doc.allPrims.filter fun p => p.material.isSome).map primKey).dedup :=
        List.mem_dedup.mpr (List.mem_map_of_mem _ hps)
      have hfind : ((doc.allPrims.filter fun p => p.material.isSome).find?
          fun q => decide (primKey q = primKey p)).isSome := by
        rw [List.find?_isSome]
        exact ⟨p, hps, by simp⟩
      obtain ⟨q, hq⟩ := Option.isSome_iff_exists.mp hfind
      refine ⟨q, List.mem_append.mpr (Or.inl
        (List.mem_filterMap.mpr ⟨primKey p, hk, hq⟩)), ?_⟩
      have hfq := List.find?_some hq
      have hqk : primKey q = primKey p := by simpa using hfq
      have hqm : q.material = p.material := congrArg PrimKey.material hqk
      rw [hqm, hm]

end MeshMerger

namespace Pipeline

theorem executeStep_step (run : StepName → Document → Except String (Document × Stats))
    (s : StepName) (doc : Document) : (executeStep run s doc).1.step = s := by
  unfold executeStep
  split <;> rfl

theorem executeStep_success_run
    (run : StepName → Document → Except String (Document × Stats))
    (s : StepName) (doc : Document)
    (h : (executeStep run s doc).1.success = true) :
    run s doc = .ok ((executeStep run s doc).2, (executeStep run s doc).1.stats) := by
  revert h
  unfold executeStep
  split
  · rename_i doc2 stats heq
    intro _
    rw [heq]
    rfl
  · intro h
    simp [createFailedStepResult] at h

theorem executeStep_fail_error
    (run : StepName → Document → Except String (Document × Stats))
    (s : StepName) (doc : Document)
    (h : (executeStep run s doc).1.success = false) :
    (executeStep run s doc).1.error ≠ none := by
  revert h
  unfold executeStep
  split
  · intro h
    simp [createSuccessStepResult] at h
  · intro _
    simp [createFailedStepResult]

theorem runLoop_spec (run : StepName → Document → Except String (Document × Stats))
    (options : OptimizationOptions) :
    ∀ (steps : List StepName) (doc : Document),
      ((runLoop run options steps doc).2.2 = true →
        ((runLoop run options steps doc).1.map StepResult.step =
          steps.filter (fun s => isStepEnabled s options)) ∧
        ∀ r ∈ (runLoop run options steps doc).1, r.success = true) ∧
      ((runLoop run options steps doc).2.2 = false →
        ∃ pre last, (runLoop run options steps doc).1 = pre ++ [last] ∧
          (∀ r ∈ pre, r.success = true) ∧ last.success = false ∧
          last.error ≠ none ∧
          (runLoop run options steps doc).1.map StepResult.step =
            (steps.filter fun s => isStepEnabled s options).take
              (runLoop run options steps doc).1.length) ∧
      (∀ r ∈ (runLoop run options steps doc).1, r.success = true →
        ∃ d1 d2, run r.step d1 = .ok (d2, r.stats)) := by
  intro steps
  induction steps with
  | nil =>
    intro doc
    refine ⟨fun _ => ⟨rfl, ?_⟩, fun h => ?_, fun r hr _ => ?_⟩
    · intro r hr
      simp [runLoop] at hr
    · simp [runLoop] at h
    · simp [runLoop] at hr
  | cons s rest ih =>
    intro doc
    cases he : isStepEnabled s options with
    | false =>
      have hskip : runLoop run options (s :: rest) doc = runLoop run options rest doc := by
        simp only [runLoop, he]
      have hfilt : (s :: rest).filter (fun s => isStepEnabled s options) =
          rest.filter (fun s => isStepEnabled s options) := by
        simp [List.filter_cons, he]
      rw [hskip, hfilt]
      exact ih doc
    | true =>
      have hfilt : (s :: rest).filter (fun s => isStepEnabled s options) =
          s :: rest.filter (fun s => isStepEnabled s options) := by
        simp [List.filter_cons, he]
      cases hs : (executeStep run s doc).1.success with
      | false =>
        have hunf : runLoop run options (s :: rest) doc =
            ([(executeStep run s doc).1], (executeStep run s doc).2, false) := by
          simp only [runLoop, he, hs]
        rw [hunf]
        refine ⟨fun h => ?_, fun _ => ?_, fun r hr hsucc => ?_⟩
        · simp at h
        · refine ⟨[], (executeStep run s doc).1, by simp, by simp, hs,
            executeStep_fail_error run s doc hs, ?_⟩
          rw [hfilt]
          simp [executeStep_step]
        · simp only [List.mem_singleton] at hr
          subst hr
          rw [hs] at hsucc
          exact absurd hsucc (by simp)
      | true =>
        have hunf : runLoop run options (s :: rest) doc =
            ((executeStep run s doc).1 ::
              (runLoop run options rest (executeStep run s doc).2).1,
             (runLoop run options rest (executeStep run s doc).2).2.1,
             (runLoop run options rest (executeStep run s doc).2).2.2) := by
          simp only [runLoop, he, hs]
        obtain ⟨ihA, ihB, ihC⟩ := ih (executeStep run s doc).2
        rw [hunf]
        refine ⟨fun ht => ?_, fun ht => ?_, fun r hr hsucc => ?_⟩
        · obtain ⟨hmap, hall⟩ := ihA ht
          constructor
          · rw [hfilt]
            simp [executeStep_step, hmap]
          · intro r hr
            rcases List.mem_cons.mp hr with hr | hr
            · rw [hr]
              exact hs
            · exact hall r hr
        · obtain ⟨pre, last, hsplit, hpre, hlast, herr, hmap⟩ := ihB ht
          refine ⟨(executeStep run s doc).1 :: pre, last, by simp [hsplit], ?_,
            hlast, herr, ?_⟩
          · intro r hr
            rcases List.mem_cons.mp hr with hr | hr
            · rw [hr]
              exact hs
            · exact hpre r hr
          · rw [hfilt]
            simp only [List.map_cons, List.length_cons, List.take_succ_cons]
            rw [executeStep_step, hmap]
        · rcases List.mem_cons.mp hr with hr | hr
          · subst hr
            refine ⟨doc, (executeStep run s doc).2, ?_⟩
            rw [executeStep_step]
            exact executeStep_success_run run s doc hs
          · exact ihC r hr hsucc

end Pipeline

namespace JsNum

theorem rDiv_self (q : ℚ) (h : q ≠ 0) : rDiv q q = 1 := by
  unfold rDiv
  rw [mul_comm (q.den : ℤ) q.num]
  exact Rat.divInt_self' (mul_ne_zero (Rat.num_ne_zero.mpr h)
    (Int.natCast_ne_zero.mpr q.den_nz))

end JsNum

namespace Pipeline

theorem filter_order_length (options : OptimizationOptions) :
    (OPTIMIZATION_ORDER.filter fun s => isStepEnabled s options).length =
      userEnabledCount options + 2 := by
  rw [← List.countP_eq_length_filter]
  have horder : OPTIMIZATION_ORDER = .repairInput :: (userSteps ++ [.repairOutput]) := rfl
  have h1 : isStepEnabled .repairInput options = true := rfl
  have h2 : isStepEnabled .repairOutput options = true := rfl
  rw [horder, List.countP_cons, List.countP_append, List.countP_cons, List.countP_nil]
  simp [userEnabledCount, h1, h2]

theorem mem_optimization_order (s : StepName) : s ∈ OPTIMIZATION_ORDER := by
  cases s <;> decide

/-- C4: once a step fails, the pipeline stops: the run returns `success =
false`, no output file is written, the reported step list is the ordered
prefix of the enabled steps up to and including the (final, failed) entry,
every earlier entry succeeded, and every successful entry's statistics are
the ones its component produced. -/
theorem C4_failure_isolation
    (run : StepName → Document → Except String (Document × Stats))
    (taskId : String) (originalSize : Nat) (readResult : Except String Document)
    (options : OptimizationOptions) (writeFn : Document → Except String Nat)
    (outcome : PipelineOutcome)
    (hok : executePipeline run taskId originalSize readResult options writeFn =
      .ok outcome)
    (hfail : ∃ r ∈ outcome.result.steps, r.success = false) :
    outcome.result.success = false ∧
    outcome.written = none ∧
    (∃ pre last, outcome.result.steps = pre ++ [last] ∧
      (∀ r ∈ pre, r.success = true) ∧ last.success = false ∧ last.error ≠ none) ∧
    outcome.result.steps.map StepResult.step =
      (OPTIMIZATION_ORDER.filter fun s => isStepEnabled s options).take
        outcome.result.steps.length ∧
    ∀ r ∈ outcome.result.steps, r.success = true →
      ∃ d1 d2, run r.step d1 = .ok (d2, r.stats) := by
  simp only [executePipeline] at hok
  split at hok
  · exact absurd hok (by simp)
  · split at hok
    · exact absurd hok (by simp)
    · rename_i document
      split at hok
      · split at hok
        · exact absurd hok (by simp)
        · exfalso
          simp only [Except.ok.injEq] at hok
          obtain ⟨r, hr, hrf⟩ := hfail
          rw [← hok] at hr
          simp only [createOptimizationResult] at hr
          rename_i ht _ _ _
          have hall := ((runLoop_spec run options OPTIMIZATION_ORDER document).1 ht).2
          rw [hall r hr] at hrf
          exact absurd hrf (by simp)
      · rename_i ht
        simp only [Bool.not_eq_true] at ht
        simp only [Except.ok.injEq] at hok
        rw [← hok]
        obtain ⟨pre, last, hsplit, hpre, hlast, herr, hmap⟩ :=
          (runLoop_spec run options OPTIMIZATION_ORDER document).2.1 ht
        refine ⟨by simp [createOptimizationResult], rfl,
          ⟨pre, last, ?_, hpre, hlast, herr⟩, ?_, ?_⟩
        · simpa [createOptimizationResult] using hsplit
        · simpa [createOptimizationResult] using hmap
        · intro r hr hsucc
          simp only [createOptimizationResult] at hr
          exact (runLoop_spec run options OPTIMIZATION_ORDER document).2.2 r hr hsucc

/-- `C4_failure_isolation` at a concrete failing run: with only the clean
step enabled and a driver whose clean component throws, the pipeline stops
after repair-input and clean, returning `success = false` with no file
written. -/
theorem C4_failure_isolation_witness :
    (executePipeline runFailClean "t" 5 (.ok {}) optsClean writeOkStub =
      .ok outcomeFail) ∧
    (∃ r ∈ outcomeFail.result.steps, r.success = false) ∧
    outcomeFail.result.success = false ∧ outcomeFail.written = none := by
  refine ⟨rfl, ⟨Pipeline.createFailedStepResult .clean 0 "clean failed",
    by decide, by decide⟩, ?_, ?_⟩
  · exact (C4_failure_isolation runFailClean "t" 5 (.ok {}) optsClean
      writeOkStub outcomeFail rfl ⟨Pipeline.createFailedStepResult .clean 0
        "clean failed", by decide, by decide⟩).1
  · exact (C4_failure_isolation runFailClean "t" 5 (.ok {}) optsClean
      writeOkStub outcomeFail rfl ⟨Pipeline.createFailedStepResult .clean 0
        "clean failed", by decide, by decide⟩).2.1

/-- C6: a successful run reports exactly the enabled steps, in the fixed
`OPTIMIZATION_ORDER`; the step list has `K + 2` entries where `K` is the
number of user-enabled optimization steps (the two repair phases are
unconditional), and a step appears if and only if `isStepEnabled` holds for
it (`options[step]?.enabled ?? false`, always true for the repairs). -/
theorem C6_step_report
    (run : StepName → Document → Except String (Document × Stats))
    (taskId : String) (originalSize : Nat) (readResult : Except String Document)
    (options : OptimizationOptions) (writeFn : Document → Except String Nat)
    (outcome : PipelineOutcome)
    (hok : executePipeline run taskId originalSize readResult options writeFn =
      .ok outcome)
    (hsucc : outcome.result.success = true) :
    outcome.result.steps.map StepResult.step =
      OPTIMIZATION_ORDER.filter (fun s => isStepEnabled s options) ∧
    outcome.result.steps.length = userEnabledCount options + 2 ∧
    ∀ s : StepName, s ∈ outcome.result.steps.map StepResult.step ↔
      isStepEnabled s options = true := by
  simp only [executePipeline] at hok
  split at hok
  · exact absurd hok (by simp)
  · split at hok
    · exact absurd hok (by simp)
    · rename_i document
      split at hok
      · split at hok
        · exact absurd hok (by simp)
        · simp only [Except.ok.injEq] at hok
          rw [← hok]
          rename_i ht _ _ _
          obtain ⟨hmap, hall⟩ := (runLoop_spec run options OPTIMIZATION_ORDER document).1 ht
          have hlen : (runLoop run options OPTIMIZATION_ORDER document).1.length =
              userEnabledCount options + 2 := by
            have hl := congrArg List.length hmap
            simp only [List.length_map] at hl
            rw [hl, filter_order_length]
          have h3 : ∀ s : StepName,
              s ∈ (runLoop run options OPTIMIZATION_ORDER document).1.map StepResult.step ↔
                isStepEnabled s options = true := by
            intro s
            rw [hmap]
            simp [List.mem_filter, mem_optimization_order s]
          exact ⟨hmap, hlen, h3⟩
      · exfalso
        simp only [Except.ok.injEq] at hok
        rw [← hok] at hsucc
        simp [createOptimizationResult] at hsucc

/-- `C6_step_report` at a concrete successful run: with simplify and draco
enabled (K = 2), the returned list has 4 entries. -/
theorem C6_step_report_witness :
    (executePipeline runOkStub "t" 5 (.ok {}) optsC6 writeOkStub = .ok outcomeC6) ∧
    outcomeC6.result.success = true ∧
    outcomeC6.result.steps.length = userEnabledCount optsC6 + 2 :=
  ⟨rfl, rfl, (C6_step_report runOkStub "t" 5 (.ok {}) optsC6 writeOkStub
    outcomeC6 rfl rfl).2.1⟩

/-- C10: a run in which a step failed still returns a well-formed result:
`optimizedSize` is set to the input's `originalSize`, so the compression
ratio is exactly 1, and `downloadUrl` is `/api/download/{taskId}` even
though no output file was written. -/
theorem C10_failed_run_result
    (run : StepName → Document → Except String (Document × Stats))
    (taskId : String) (originalSize : Nat) (readResult : Except String Document)
    (options : OptimizationOptions) (writeFn : Document → Except String Nat)
    (outcome : PipelineOutcome)
    (hok : executePipeline run taskId originalSize readResult options writeFn =
      .ok outcome)
    (hfail : outcome.result.success = false) :
    outcome.result.optimizedSize = outcome.result.originalSize ∧
    outcome.result.originalSize = originalSize ∧
    outcome.result.compressionRatio = 1 ∧
    outcome.result.downloadUrl = "/api/download/" ++ taskId ∧
    outcome.written = none := by
  simp only [executePipeline] at hok
  split at hok
  · exact absurd hok (by simp)
  · rename_i hsz
    split at hok
    · exact absurd hok (by simp)
    · split at hok
      · split at hok
        · exact absurd hok (by simp)
        · exfalso
          simp only [Except.ok.injEq] at hok
          rw [← hok] at hfail
          simp [createOptimizationResult] at hfail
      · simp only [Except.ok.injEq] at hok
        rw [← hok]
        refine ⟨rfl, rfl, ?_, rfl, rfl⟩
        simp only [createOptimizationResult]
        rw [if_pos (Nat.pos_of_ne_zero hsz)]
        apply JsNum.rDiv_self
        rw [Rat.mkRat_one]
        exact_mod_cast hsz

/-- `C10_failed_run_result` at the concrete failing clean run: the result
reports sizes 5/5, ratio 1 and the download URL for task `t`. -/
theorem C10_failed_run_result_witness :
    (executePipeline runFailClean "t" 5 (.ok {}) optsClean writeOkStub =
      .ok outcomeFail) ∧
    outcomeFail.result.success = false ∧
    outcomeFail.result.compressionRatio = 1 ∧
    outcomeFail.result.downloadUrl = "/api/download/" ++ "t" :=
  ⟨rfl, rfl,
    (C10_failed_run_result runFailClean "t" 5 (.ok {}) optsClean writeOkStub
      outcomeFail rfl rfl).2.2.1,
    (C10_failed_run_result runFailClean "t" 5 (.ok {}) optsClean writeOkStub
      outcomeFail rfl rfl).2.2.2.1⟩

end Pipeline
